import Mathlib

/-!
# Verification of the BirdCast migration scraper

Shallow embedding of the scrape–extract–normalize–persist pipeline of the
`birdcast-migration-scraper` repository, together with theorems settling the
frozen claims about it.

The embedding covers:

* the Record Store `save_to_parquet` of `scripts/scraper_utils.py`
  (pandas `concat` / `sort_values` / `drop_duplicates` pipeline);
* the timestamp normalizer `parse_datetime_string` of
  `scripts/scraper_utils.py` (over a model of `dateutil.parser.parse` for the
  dashboard's timestamp grammar);
* the field extractors `scrape_single_url` of `scripts/scraper_utils.py` and
  of the class-based `birdcast_scraper.py`, with their regular-expression
  matchers translated pattern by pattern (leftmost search, greedy/lazy
  backtracking alternatives in priority order).
-/

namespace Birdcast

/-! ## Record Store (`scripts/scraper_utils.py`, `save_to_parquet`)

A persisted row.  Only the columns that `save_to_parquet` inspects are modelled
by name; `payload` stands for every other column of the row (url, region_name,
the numeric fields, …), so that otherwise-identical rows can be distinguished.

`scrape_timestamp` is modelled as a UTC instant in epoch seconds (the Python
code stores `datetime.now(timezone.utc).isoformat()` and converts it back with
`pd.to_datetime`; that round-trip is faithful, and `.dt.date` becomes division
by 86400).  The extractor always sets `scrape_timestamp`, so the model makes
it a total field; `region_code` and `migration_date` are optional, `none`
modelling an absent key in the record dict — which pandas turns into NaN when
any other row of the frame has the column. -/
structure Row where
  scrape_timestamp : Nat
  region_code : Option String
  migration_date : Option String
  payload : Nat
deriving DecidableEq, Repr

/-- A pandas column "exists" in the combined frame iff some row carries a value
for it (scraper records only ever set a key when its pattern matched, so an
all-`none` column never arises from the pipeline). -/
def colExists (combined : List Row) (f : Row → Option String) : Bool :=
  combined.any fun r => (f r).isSome

/-- The `date_key` helper column of `save_to_parquet` (lines 276–280):
`migration_date` when that **column** exists, else the calendar-date part of
`scrape_timestamp`.  `none` models a NaN entry (a row without `migration_date`
while the column exists). -/
def date_key (migCol : Bool) (r : Row) : Option (String ⊕ Nat) :=
  if migCol then r.migration_date.map Sum.inl
  else some (Sum.inr (r.scrape_timestamp / 86400))

/-- The `date_key` a given row receives inside a given combined frame. -/
def dateKeyOf (combined : List Row) (r : Row) : Option (String ⊕ Nat) :=
  date_key (colExists combined (·.migration_date)) r

/-- The spec's per-row day-key: `migration_date` if present **in the row**,
else the calendar date of the row's `scrape_timestamp`.  This follows the
spec's words and is compared against `dateKeyOf`, which follows the code. -/
def specDayKey (r : Row) : String ⊕ Nat :=
  match r.migration_date with
  | some s => Sum.inl s
  | none => Sum.inr (r.scrape_timestamp / 86400)

/-- The subset `drop_duplicates` deduplicates on: `['region_code', 'date_key']`.
pandas treats NaN as equal to NaN in `drop_duplicates`, which is exactly
`Option` equality with `none = none`. -/
def dedupKey (migCol : Bool) (r : Row) : Option String × Option (String ⊕ Nat) :=
  (r.region_code, date_key migCol r)

/-- Insert into a list sorted by `scrape_timestamp` descending. -/
def insertDesc (r : Row) : List Row → List Row
  | [] => [r]
  | s :: ss => if s.scrape_timestamp < r.scrape_timestamp then r :: s :: ss
               else s :: insertDesc r ss

/-- `sort_values('scrape_timestamp_dt', ascending=False)` (line 283), modelled
as insertion sort.  pandas' default quicksort is unstable, so no claim relies
on the relative order of equal timestamps; any descending sort is a faithful
model for the properties proved here. -/
def sortTsDesc : List Row → List Row
  | [] => []
  | r :: rs => insertDesc r (sortTsDesc rs)

/-- Auxiliary for `dropDuplicates`: walk the rows keeping each row whose key
has not been seen yet. -/
def dropDupAux {K : Type} [DecidableEq K] (key : Row → K) (seen : List K) :
    List Row → List Row
  | [] => []
  | r :: rs =>
    if key r ∈ seen then dropDupAux key seen rs
    else r :: dropDupAux key (key r :: seen) rs

/-- `drop_duplicates(subset=..., keep='first')` (lines 284–287): keep the first
occurrence of every key, drop the rest. -/
def dropDuplicates {K : Type} [DecidableEq K] (key : Row → K) (l : List Row) :
    List Row :=
  dropDupAux key [] l

/-- The in-memory result of one `save_to_parquet` call on a non-empty batch:
concatenate existing + new (existing first, as in
`pd.concat([existing_df, new_df])`, so `combined = existing ++ data_list`),
then — provided the combined frame has a `region_code` column
(`scrape_timestamp` is always present, and the frame is non-empty) — sort by
`scrape_timestamp` descending and drop duplicate `(region_code, date_key)`
rows, keeping the first. -/
def persistRows (data_list existing : List Row) : List Row :=
  if colExists (existing ++ data_list) (·.region_code) then
    dropDuplicates (dedupKey (colExists (existing ++ data_list) (·.migration_date)))
      (sortTsDesc (existing ++ data_list))
  else existing ++ data_list

/-- `save_to_parquet(data_list, filename)` as a transition on the dataset file.
The file state is `none` (no file) or `some rows`.  The second component
records whether the call wrote the file: an empty (falsy) `data_list` returns
before any file I/O (lines 244–245); otherwise a missing file is treated as an
empty existing dataset and the file is rewritten. -/
def save_to_parquet (data_list : List Row) (file : Option (List Row)) :
    Option (List Row) × Bool :=
  if data_list.isEmpty then (file, false)
  else (some (persistRows data_list (file.getD [])), true)

/-- The comparison underlying the descending sort. -/
def tsGE (a b : Row) : Prop := b.scrape_timestamp ≤ a.scrape_timestamp

/-! ## Timestamp normalizer (`scripts/scraper_utils.py`, `parse_datetime_string`)

The normalizer feeds timestamp strings through `dateutil.parser.parse` and
converts the result to a UTC ISO-8601 string.  `dateutil` is modelled for the
dashboard's timestamp grammar
`<Weekday>, <Month> <day>, <year>, <h:mm> <AM|PM> [<TZ>]`; strings outside
that grammar are a parse failure in the model (as the concrete failing inputs
of the claims are for real `dateutil`). -/
/-- Python `str.split()` whitespace (the inputs here are ASCII). -/
def isPyWs (c : Char) : Bool :=
  c = ' ' || c = '\t' || c = '\n' || c = '\r' || c = '\x0b' || c = '\x0c'

/-- Auxiliary for `pySplit`: accumulate the current word (reversed). -/
def pySplitAux : List Char → List Char → List (List Char)
  | [], acc => if acc.isEmpty then [] else [acc.reverse]
  | c :: s, acc =>
    if isPyWs c then
      if acc.isEmpty then pySplitAux s [] else acc.reverse :: pySplitAux s []
    else pySplitAux s (c :: acc)

/-- Python `str.split()` with no argument: split on whitespace runs, dropping
leading/trailing whitespace and empty words. -/
def pySplit (s : List Char) : List (List Char) := pySplitAux s []

/-- `' '.join(datetime_str.split())` (scraper_utils line 76). -/
def squash (s : String) : String := ⟨List.intercalate [' '] (pySplit s.toList)⟩

/-- Python `str.strip()` (birdcast_scraper line 51). -/
def pyStrip (s : String) : String :=
  ⟨((s.toList.dropWhile isPyWs).reverse.dropWhile isPyWs).reverse⟩

/-- Result of the `dateutil` parse.  `aware` is `tzinfo is not None`; the only
timezone names `dateutil.parser.parse` resolves without a `tzinfos` argument
are UTC/GMT/Z (all zero offset), so an aware result always already denotes
UTC and the hour field is the UTC hour. -/
structure ParsedDT where
  year : Nat
  month : Nat
  day : Nat
  hour : Nat
  minute : Nat
  aware : Bool
deriving DecidableEq, Repr

/-- Strip the trailing commas the dashboard grammar attaches to tokens
(`"Sun,"`, `"17,"`, …); `dateutil`'s lexer treats them as separators. -/
def stripTrail (w : List Char) : List Char :=
  (w.reverse.dropWhile (· = ',')).reverse

/-- Decimal value of a digit string. -/
def decVal (ds : List Char) : Nat :=
  ds.foldl (fun n c => 10 * n + (c.toNat - 48)) 0

/-- Parse a non-empty all-digit token. -/
def decValOpt (w : List Char) : Option Nat :=
  if w ≠ [] ∧ w.all Char.isDigit then some (decVal w) else none

/-- Month names `dateutil`'s default `parserinfo` knows (abbreviated or
full, case-insensitive). -/
def monthNum (w : List Char) : Option Nat :=
  let lw : String := ⟨w.map Char.toLower⟩
  if lw = "jan" ∨ lw = "january" then some 1
  else if lw = "feb" ∨ lw = "february" then some 2
  else if lw = "mar" ∨ lw = "march" then some 3
  else if lw = "apr" ∨ lw = "april" then some 4
  else if lw = "may" then some 5
  else if lw = "jun" ∨ lw = "june" then some 6
  else if lw = "jul" ∨ lw = "july" then some 7
  else if lw = "aug" ∨ lw = "august" then some 8
  else if lw = "sep" ∨ lw = "sept" ∨ lw = "september" then some 9
  else if lw = "oct" ∨ lw = "october" then some 10
  else if lw = "nov" ∨ lw = "november" then some 11
  else if lw = "dec" ∨ lw = "december" then some 12
  else none

/-- Weekday names known to `dateutil` (abbreviated or full,
case-insensitive). -/
def isWeekdayTok (w : List Char) : Bool :=
  let lw : String := ⟨w.map Char.toLower⟩
  lw = "mon" || lw = "monday" || lw = "tue" || lw = "tuesday" ||
  lw = "wed" || lw = "wednesday" || lw = "thu" || lw = "thursday" ||
  lw = "fri" || lw = "friday" || lw = "sat" || lw = "saturday" ||
  lw = "sun" || lw = "sunday"

/-- `AM`/`PM` token (case-insensitive); `true` means PM. -/
def meridiem (w : List Char) : Option Bool :=
  let lw : String := ⟨w.map Char.toLower⟩
  if lw = "am" then some false else if lw = "pm" then some true else none

/-- `dateutil`'s `_could_be_tzname`: a short all-uppercase alphabetic token. -/
def isTzToken (w : List Char) : Bool :=
  decide (1 ≤ w.length) && decide (w.length ≤ 5) &&
    w.all fun c => 'A' ≤ c && c ≤ 'Z'

/-- `dateutil` resolves a timezone *name* (with no `tzinfos` argument and no
numeric offset in the string) only for UTC/GMT/Z; any other abbreviation —
EDT, EST, CDT, … — raises `UnknownTimezoneWarning` and is dropped, leaving a
**naive** datetime (on a host whose local timezone does not carry that name,
which is every host outside the zone in question). -/
def tzKnownUTC (w : List Char) : Bool :=
  w = "UTC".toList || w = "GMT".toList || w = "Z".toList

/-- `h:mm` clock token: hour 1–12 (12-hour clock, meridiem follows), minute
two digits below 60. -/
def parseClock (w : List Char) : Option (Nat × Nat) :=
  match w.splitOn ':' with
  | [h, m] =>
    match decValOpt h, decValOpt m with
    | some hv, some mv =>
      if 1 ≤ hv ∧ hv ≤ 12 ∧ h.length ≤ 2 ∧ m.length = 2 ∧ mv ≤ 59 then
        some (hv, mv)
      else none
    | _, _ => none
  | _ => none

/-- 12-hour clock to 24-hour. -/
def hour24 (h : Nat) (pm : Bool) : Nat := h % 12 + (if pm then 12 else 0)

/-- Common handling of the date-and-time tokens of the dashboard grammar.
The day-of-month check is the coarse `1 ≤ d ≤ 31`; month-specific lengths
(`datetime` raising on e.g. Feb 31) are not modelled — no claim exercises
them. -/
def buildParsed (wd mon day yr tm ap : List Char) (aware : Bool) :
    Option ParsedDT :=
  if isWeekdayTok wd then
    match monthNum mon, decValOpt day, decValOpt yr, parseClock tm, meridiem ap with
    | some m, some d, some y, some (h, mi), some pm =>
      if 1 ≤ d ∧ d ≤ 31 ∧ yr.length = 4 then
        some ⟨y, m, d, hour24 h pm, mi, aware⟩
      else none
    | _, _, _, _, _ => none
  else none

/-- `dateutil.parser.parse` on the dashboard's timestamp grammar
`<Weekday>, <Month> <day>, <year>, <h:mm> <AM|PM> [<TZ>]`.  `none` models a
`ParserError`. -/
def dateutilParse (s : List Char) : Option ParsedDT :=
  match (pySplit s).map stripTrail with
  | [wd, mon, day, yr, tm, ap] => buildParsed wd mon day yr tm ap false
  | [wd, mon, day, yr, tm, ap, tz] =>
    if isTzToken tz then buildParsed wd mon day yr tm ap (tzKnownUTC tz)
    else none
  | _ => none

/-- Left-pad to two digits. -/
def pad2 (n : Nat) : String := if n < 10 then "0" ++ toString n else toString n

/-- Left-pad to four digits. -/
def pad4 (n : Nat) : String :=
  if n < 10 then "000" ++ toString n
  else if n < 100 then "00" ++ toString n
  else if n < 1000 then "0" ++ toString n
  else toString n

/-- `utc_dt.isoformat()` for a whole-second UTC instant. -/
def isoOf (dt : ParsedDT) : String :=
  pad4 dt.year ++ "-" ++ pad2 dt.month ++ "-" ++ pad2 dt.day ++ "T" ++
    pad2 dt.hour ++ ":" ++ pad2 dt.minute ++ ":00+00:00"

namespace ScraperUtils

/-- `parse_datetime_string` of `scripts/scraper_utils.py` (lines 61–91).
The input is first whitespace-normalized (`' '.join(datetime_str.split())`,
line 76, rebinding the local variable); an aware parse is converted with
`astimezone(pytz.UTC)` (identity here: the only resolvable names are already
UTC), a naive parse is localized as UTC; on parse failure the function logs a
warning and returns the (already rebound, whitespace-normalized) string. -/
def parse_datetime_string (datetime_str : String) : String :=
  if datetime_str = "" then datetime_str
  else
    match dateutilParse (squash datetime_str).toList with
    | none => squash datetime_str
    | some dt => isoOf dt

end ScraperUtils

namespace BirdcastScraper

/-- `parse_datetime_string` of `birdcast_scraper.py` (lines 44–68): strips the
input, parses with `fuzzy=True` (no behavioural difference on the dashboard
grammar), returns `None` for empty input and the **original** string on parse
failure. -/
def parse_datetime_string (datetime_str : String) : Option String :=
  if datetime_str = "" then none
  else
    match dateutilParse (pyStrip datetime_str).toList with
    | none => some datetime_str
    | some dt => some (isoOf dt)

end BirdcastScraper

/-! ## Regular-expression machinery

Each `re` pattern of the extractors is translated into a matcher over
`List Char`.  Backtracking constructs produce their alternatives as a list of
`(consumed, rest)` pairs in the engine's priority order (greedy: longest
first; lazy: shortest first); sequencing is `flatMap`, and a match at a
position is the first alternative whose continuation succeeds (`find?`).
`re.search` tries positions left to right (`searchOpt`); `re.findall`
continues after each match (`findAllStrictF`). -/
/-- `[A-Za-z]` (Python character classes here are ASCII). -/
def isAsciiAlpha (c : Char) : Bool := ('A' ≤ c && c ≤ 'Z') || ('a' ≤ c && c ≤ 'z')

/-- `[A-Z]`. -/
def isAsciiUpper (c : Char) : Bool := 'A' ≤ c && c ≤ 'Z'

/-- Case-insensitive literal: consume `pat` (up to case) or fail. -/
def litCI : List Char → List Char → Option (List Char)
  | [], s => some s
  | _ :: _, [] => none
  | p :: ps, c :: s => if p.toLower = c.toLower then litCI ps s else none

/-- Case-sensitive literal. -/
def litCS : List Char → List Char → Option (List Char)
  | [], s => some s
  | _ :: _, [] => none
  | p :: ps, c :: s => if p = c then litCS ps s else none

/-- `p+`: all non-empty runs of `p`-characters, longest first. -/
def runAlts (p : Char → Bool) : List Char → List (List Char × List Char)
  | [] => []
  | c :: s =>
    if p c then ((runAlts p s).map fun gr => (c :: gr.1, gr.2)) ++ [([c], s)]
    else []

/-- `p*`: greedy star, longest first (including the empty match). -/
def starAlts (p : Char → Bool) (s : List Char) : List (List Char × List Char) :=
  runAlts p s ++ [([], s)]

/-- `p+?`: lazy plus, shortest first. -/
def lazyAlts (p : Char → Bool) : List Char → List (List Char × List Char)
  | [] => []
  | c :: s =>
    if p c then ([c], s) :: ((lazyAlts p s).map fun gr => (c :: gr.1, gr.2))
    else []

/-- `.*` without `DOTALL`: any run not containing a newline, longest first. -/
def dotStarAlts : List Char → List (List Char × List Char)
  | [] => [([], [])]
  | c :: s =>
    if c = '\n' then [([], c :: s)]
    else ((dotStarAlts s).map fun gr => (c :: gr.1, gr.2)) ++ [([], c :: s)]

/-- `p{k}`: exactly `k` characters satisfying `p`. -/
def charsExact (p : Char → Bool) : Nat → List Char → Option (List Char × List Char)
  | 0, s => some ([], s)
  | _ + 1, [] => none
  | k + 1, c :: s =>
    if p c then (charsExact p k s).map fun gr => (c :: gr.1, gr.2) else none

/-- `p{1,n}`: between one and `n` characters, longest first. -/
def charsUpTo (p : Char → Bool) : Nat → List Char → List (List Char × List Char)
  | 0, _ => []
  | k + 1, s =>
    (match charsExact p (k + 1) s with
     | some gr => [gr]
     | none => []) ++ charsUpTo p k s

/-- `,?\d{3}`: one thousands group, the greedy `,?` trying the comma first. -/
def sep3Alts (s : List Char) : List (List Char × List Char) :=
  (match s with
   | c :: r =>
     if c = ',' then
       match charsExact Char.isDigit 3 r with
       | some gr => [(c :: gr.1, gr.2)]
       | none => []
     else []
   | [] => []) ++
  (match charsExact Char.isDigit 3 s with
   | some gr => [gr]
   | none => [])

/-- `(?:,?\d{3})*`: greedy star over thousands groups, longest first; each
iteration consumes at least three characters, so `fuel` bounds iterations. -/
def starSep3 : Nat → List Char → List (List Char × List Char)
  | 0, s => [([], s)]
  | fuel + 1, s =>
    ((sep3Alts s).flatMap fun gr =>
      (starSep3 fuel gr.2).map fun gr2 => (gr.1 ++ gr2.1, gr2.2)) ++ [([], s)]

/-- The capture group `(\d{1,3}(?:,?\d{3})*)`: its alternatives in the
engine's backtracking order. -/
def numGroupAlts (s : List Char) : List (List Char × List Char) :=
  (charsUpTo Char.isDigit 3 s).flatMap fun gr =>
    (starSep3 gr.2.length gr.2).map fun gr2 => (gr.1 ++ gr2.1, gr2.2)

/-- `int(group.replace(',', ''))`: strip thousands separators, parse. -/
def intOfGroup (g : List Char) : Nat := decVal (g.filter fun c => c != ',')

/-- `re.search`: try the position matcher at each position, left to right. -/
def searchOpt {α : Type} (f : List Char → Option α) : List Char → Option α
  | [] => f []
  | c :: s =>
    match f (c :: s) with
    | some g => some g
    | none => searchOpt f s

/-- `.strip()` on a captured group. -/
def pyStripL (l : List Char) : List Char :=
  ((l.dropWhile isPyWs).reverse.dropWhile isPyWs).reverse

/-! ### Matchers shared by both extractors -/
/-- `/region/([^/]+)$` at a position of the URL. -/
def regionCodeAt (s : List Char) : Option (List Char) :=
  match litCS "/region/".toList s with
  | some r => if !r.isEmpty && r.all (fun c => c != '/') then some r else none
  | none => none

/-- `[A-Za-z\s,]`, the region-name character class. -/
def isRegionNameChar (c : Char) : Bool := isAsciiAlpha c || isPyWs c || c = ','

/-- `(?:\s+Search|$)` after the lazy region-name group (`$` also matches just
before a single trailing newline). -/
def regionNameTail (s : List Char) : Bool :=
  ((runAlts isPyWs s).any fun wr => (litCS "Search".toList wr.2).isSome) ||
    s.isEmpty || s == ['\n']

/-- `Migration Dashboard\s+([A-Za-z\s,]+?)(?:\s+Search|$)` at a position,
returning the stripped group. -/
def regionNameAt (s : List Char) : Option (List Char) :=
  match litCS "Migration Dashboard".toList s with
  | none => none
  | some r =>
    (((runAlts isPyWs r).flatMap fun wr => lazyAlts isRegionNameChar wr.2).find?
        fun gr => regionNameTail gr.2).map fun gr => pyStripL gr.1

/-- Continuation `\s+Birds crossed.*last night` (IGNORECASE) of the
total-birds pattern. -/
def birdsCrossedTail (s : List Char) : Bool :=
  (runAlts isPyWs s).any fun wr =>
    ((litCI "Birds crossed".toList wr.2).map fun r2 =>
      (dotStarAlts r2).any fun dr =>
        (litCI "last night".toList dr.2).isSome).getD false

/-- `(\d{1,3}(?:,?\d{3})*)\s+Birds crossed.*last night` (IGNORECASE) at a
position: the first numeral alternative whose continuation matches. -/
def birdsCrossedAt (s : List Char) : Option (List Char) :=
  ((numGroupAlts s).find? fun gr => birdsCrossedTail gr.2).map fun gr => gr.1

/-- `total_birds`: search, strip separators, parse (the `int` call cannot
fail on a digits-and-commas group with the commas stripped, so the
try/except around it has no failing branch to model). -/
def total_birds_match (text : List Char) : Option Nat :=
  (searchOpt birdsCrossedAt text).map intOfGroup

namespace ScraperUtils

/-- `Peak of (\d{1,3}(?:,?\d{3})*) birds in flight` (IGNORECASE) at a
position (scraper_utils line 151). -/
def peakAt (s : List Char) : Option (List Char) :=
  ((litCI "Peak of ".toList s).map fun r =>
    ((numGroupAlts r).find? fun gr =>
        (litCI " birds in flight".toList gr.2).isSome).map fun gr => gr.1).getD
    none

/-- `peak_birds_in_flight` in `scripts/scraper_utils.py`. -/
def peak_birds_match (text : List Char) : Option Nat :=
  (searchOpt peakAt text).map intOfGroup

/-- `flying ([A-Z]{1,3})` (case-sensitive, line 160). -/
def directionAt (s : List Char) : Option (List Char) :=
  match litCS "flying ".toList s with
  | some r => (charsUpTo isAsciiUpper 3 r).head?.map fun gr => gr.1
  | none => none

/-- `at (\d+) mph` (line 165). -/
def speedAt (s : List Char) : Option (List Char) :=
  match litCS "at ".toList s with
  | some r =>
    ((runAlts Char.isDigit r).find? fun gr =>
        (litCS " mph".toList gr.2).isSome).map fun gr => gr.1
  | none => none

/-- `at (\d{1,3}(?:,?\d{3})*) feet` (line 173). -/
def altitudeAt (s : List Char) : Option (List Char) :=
  match litCS "at ".toList s with
  | some r =>
    ((numGroupAlts r).find? fun gr =>
        (litCS " feet".toList gr.2).isSome).map fun gr => gr.1
  | none => none

/-- `[AP]` of the strict timestamp pattern. -/
def apChar : List Char → Option (Char × List Char)
  | c :: s => if c = 'A' ∨ c = 'P' then some (c, s) else none
  | [] => none

/-- All matches of the strict timestamp pattern
`([A-Za-z]{3}, [A-Za-z]{3} \d{1,2}, \d{4}, \d{1,2}:\d{2} [AP]M [A-Z]{3})`
(line 183) at a fixed position, in backtracking order, as
`(matched, rest)`. -/
def strictTSAlts (s : List Char) : List (List Char × List Char) :=
  (charsExact isAsciiAlpha 3 s).toList.flatMap fun w1 =>
  (litCS ", ".toList w1.2).toList.flatMap fun r2 =>
  (charsExact isAsciiAlpha 3 r2).toList.flatMap fun w2 =>
  (litCS " ".toList w2.2).toList.flatMap fun r4 =>
  (charsUpTo Char.isDigit 2 r4).flatMap fun d =>
  (litCS ", ".toList d.2).toList.flatMap fun r6 =>
  (charsExact Char.isDigit 4 r6).toList.flatMap fun y =>
  (litCS ", ".toList y.2).toList.flatMap fun r8 =>
  (charsUpTo Char.isDigit 2 r8).flatMap fun h =>
  (litCS ":".toList h.2).toList.flatMap fun r10 =>
  (charsExact Char.isDigit 2 r10).toList.flatMap fun mi =>
  (litCS " ".toList mi.2).toList.flatMap fun r12 =>
  (apChar r12).toList.flatMap fun ap =>
  (litCS "M ".toList ap.2).toList.flatMap fun r14 =>
  (charsExact isAsciiUpper 3 r14).toList.map fun tz =>
  (w1.1 ++ ", ".toList ++ w2.1 ++ " ".toList ++ d.1 ++ ", ".toList ++ y.1 ++
     ", ".toList ++ h.1 ++ ":".toList ++ mi.1 ++ " ".toList ++ [ap.1] ++
     "M ".toList ++ tz.1, tz.2)

/-- First strict-pattern match at a fixed position. -/
def strictTSAt (s : List Char) : Option (List Char × List Char) :=
  (strictTSAlts s).head?

/-- `re.findall` of the strict pattern: scan left to right, continue after
each match; every step consumes at least one character, so the input length
is sufficient fuel. -/
def findAllStrictF : Nat → List Char → List (List Char)
  | 0, _ => []
  | _ + 1, [] => []
  | fuel + 1, c :: s =>
    match strictTSAt (c :: s) with
    | some mr => mr.1 :: findAllStrictF fuel mr.2
    | none => findAllStrictF fuel s

/-- `re.findall(strict_timestamp_pattern, text)`. -/
def findAllStrict (s : List Char) : List (List Char) := findAllStrictF s.length s

/-- `([A-Za-z]+ night, [A-Za-z]+ \d{1,2})` (line 195) at a position. -/
def migrationDateAt (s : List Char) : Option (List Char) :=
  ((runAlts isAsciiAlpha s).flatMap fun w1 =>
    (litCS " night, ".toList w1.2).toList.flatMap fun r2 =>
    (runAlts isAsciiAlpha r2).flatMap fun w2 =>
    (litCS " ".toList w2.2).toList.flatMap fun r4 =>
    (charsUpTo Char.isDigit 2 r4).map fun d =>
    (w1.1 ++ " night, ".toList ++ w2.1 ++ " ".toList ++ d.1, d.2)).head?.map
    fun gr => gr.1

/-- The record produced by `scrape_single_url` of `scripts/scraper_utils.py`
(lines 122–200) for a page text, omitting the constant `scrape_timestamp`
(always present, the wall-clock fetch instant).  Every optional field is the
result of its independent pattern; `none` models an absent dict key. -/
structure UtilsData where
  url : List Char
  region_code : Option (List Char)
  region_name : Option (List Char)
  total_birds : Option Nat
  peak_birds_in_flight : Option Nat
  flight_direction : Option (List Char)
  flight_speed_mph : Option Nat
  flight_altitude_ft : Option Nat
  migration_start_raw : Option (List Char)
  migration_end_raw : Option (List Char)
  migration_start_utc : Option String
  migration_end_utc : Option String
  migration_date : Option (List Char)
deriving DecidableEq, Repr

/-- `scrape_single_url(session, url)` of `scripts/scraper_utils.py`, given
the fetched page text (the HTTP fetch, HTML parse and `soup.get_text()`
flattening are outside the model; `text` is `text_content`).  The
migration-time fields are populated only when the strict pattern yields at
least two matches (first = start, second = end); there is no fallback
pattern in this file. -/
def scrape_single_url (url text : List Char) : UtilsData :=
  let times := findAllStrict text
  let startRaw : Option (List Char) :=
    match times with
    | t1 :: _ :: _ => some t1
    | _ => none
  let endRaw : Option (List Char) :=
    match times with
    | _ :: t2 :: _ => some t2
    | _ => none
  { url := url
    region_code := searchOpt regionCodeAt url
    region_name := searchOpt regionNameAt text
    total_birds := total_birds_match text
    peak_birds_in_flight := peak_birds_match text
    flight_direction := searchOpt directionAt text
    flight_speed_mph := (searchOpt speedAt text).map intOfGroup
    flight_altitude_ft := (searchOpt altitudeAt text).map intOfGroup
    migration_start_raw := startRaw
    migration_end_raw := endRaw
    migration_start_utc := startRaw.map fun r => parse_datetime_string ⟨r⟩
    migration_end_utc := endRaw.map fun r => parse_datetime_string ⟨r⟩
    migration_date := searchOpt migrationDateAt text }

end ScraperUtils

/-! ### Generic lemmas about the matcher combinators -/
/-- First character (if any) fails `p`. -/
def headNot (p : Char → Bool) : List Char → Prop
  | [] => True
  | c :: _ => p c = false

/-- The stop condition after a numeral: the next character can extend
neither the digit run nor a further `,ddd` group. -/
def numStop (t : List Char) : Prop :=
  headNot Char.isDigit t ∧ headNot (fun c => c == ',') t

/-- Catenation of the trailing thousands groups, commas included. -/
def gsCat (gs : List (List Char)) : List Char := gs.flatMap fun g => ',' :: g

/-- A well-formed thousands-separated numeral: leading group of one to three
digits, then comma-separated groups of exactly three digits. -/
def wellNum (g0 : List Char) (gs : List (List Char)) : Prop :=
  1 ≤ g0.length ∧ g0.length ≤ 3 ∧ (∀ c ∈ g0, Char.isDigit c = true) ∧
    ∀ g ∈ gs, g.length = 3 ∧ ∀ c ∈ g, Char.isDigit c = true

/-- The numeral as written in the page text. -/
def numeral (g0 : List Char) (gs : List (List Char)) : List Char := g0 ++ gsCat gs

/-- Case-insensitive equality of character lists. -/
abbrev ciEq (a b : List Char) : Prop := a.map Char.toLower = b.map Char.toLower

/-! ## The class-based extractor (`birdcast_scraper.py`, `scrape_single_url`)

The top-level `birdcast_scraper.py` carries its own extraction patterns,
which differ from `scripts/scraper_utils.py`: a looser peak pattern, labelled
`Starting:`/`Ending:` timing patterns with a fallback, and a diagnostic field
attached when nothing beyond the two base fields was extracted. -/
namespace BirdcastScraper

/-- `[:\s]`, the separator class after the field labels. -/
def isColonWs (c : Char) : Bool := c = ':' || isPyWs c

/-- `(\d{1,3}(?:,?\d{3})*)\s+Birds in flight` (IGNORECASE, line 115) at a
position. -/
def peakClassAt (s : List Char) : Option (List Char) :=
  ((numGroupAlts s).find? fun gr =>
    (runAlts isPyWs gr.2).any fun wr =>
      (litCI "Birds in flight".toList wr.2).isSome).map fun gr => gr.1

/-- `[NEWS]` with IGNORECASE. -/
def isNewsCI (c : Char) : Bool :=
  c.toLower = 'n' || c.toLower = 'e' || c.toLower = 'w' || c.toLower = 's'

/-- `Direction[:\s]*([NEWS]{1,3})` (IGNORECASE, line 120) at a position. -/
def directionClassAt (s : List Char) : Option (List Char) :=
  ((litCI "Direction".toList s).map fun r =>
    ((starAlts isColonWs r).flatMap fun sr =>
      charsUpTo isNewsCI 3 sr.2).head?.map fun gr => gr.1).getD none

/-- `Speed[:\s]*(\d+)\s*mph` (IGNORECASE, line 125) at a position. -/
def speedClassAt (s : List Char) : Option (List Char) :=
  ((litCI "Speed".toList s).map fun r =>
    (((starAlts isColonWs r).flatMap fun sr =>
        runAlts Char.isDigit sr.2).find? fun gr =>
      (starAlts isPyWs gr.2).any fun wr =>
        (litCI "mph".toList wr.2).isSome).map fun gr => gr.1).getD none

/-- `Altitude[:\s]*(\d{1,3}(?:,?\d{3})*)\s*ft` (IGNORECASE, line 130) at a
position. -/
def altitudeClassAt (s : List Char) : Option (List Char) :=
  ((litCI "Altitude".toList s).map fun r =>
    (((starAlts isColonWs r).flatMap fun sr =>
        numGroupAlts sr.2).find? fun gr =>
      (starAlts isPyWs gr.2).any fun wr =>
        (litCI "ft".toList wr.2).isSome).map fun gr => gr.1).getD none

/-- `[AP]` with IGNORECASE. -/
def apCharCI : List Char → Option (Char × List Char)
  | c :: s => if c.toLower = 'a' ∨ c.toLower = 'p' then some (c, s) else none
  | [] => none

/-- The group of the labelled strict pattern (lines 136/149):
`[A-Za-z]{3},\s+[A-Za-z]+\s+\d{1,2},\s+\d{4},\s+\d{1,2}:\d{2}\s+[AP]M\s+[A-Z]{3,4}`
(IGNORECASE turns `[A-Z]{3,4}` into any-case letters), alternatives in
backtracking order as `(matched, rest)`. -/
def labeledTSAlts (s : List Char) : List (List Char × List Char) :=
  (charsExact isAsciiAlpha 3 s).toList.flatMap fun w1 =>
  (litCS ",".toList w1.2).toList.flatMap fun r2 =>
  (runAlts isPyWs r2).flatMap fun s1 =>
  (runAlts isAsciiAlpha s1.2).flatMap fun w2 =>
  (runAlts isPyWs w2.2).flatMap fun s2 =>
  (charsUpTo Char.isDigit 2 s2.2).flatMap fun d =>
  (litCS ",".toList d.2).toList.flatMap fun r6 =>
  (runAlts isPyWs r6).flatMap fun s3 =>
  (charsExact Char.isDigit 4 s3.2).toList.flatMap fun y =>
  (litCS ",".toList y.2).toList.flatMap fun r8 =>
  (runAlts isPyWs r8).flatMap fun s4 =>
  (charsUpTo Char.isDigit 2 s4.2).flatMap fun h =>
  (litCS ":".toList h.2).toList.flatMap fun r10 =>
  (charsExact Char.isDigit 2 r10).toList.flatMap fun mi =>
  (runAlts isPyWs mi.2).flatMap fun s5 =>
  (apCharCI s5.2).toList.flatMap fun ap =>
  (litCI "M".toList ap.2).toList.flatMap fun r12 =>
  (runAlts isPyWs r12).flatMap fun s6 =>
  ((charsExact isAsciiAlpha 4 s6.2).toList ++
      (charsExact isAsciiAlpha 3 s6.2).toList).map fun tz =>
  (w1.1 ++ [','] ++ s1.1 ++ w2.1 ++ s2.1 ++ d.1 ++ [','] ++ s3.1 ++ y.1 ++
     [','] ++ s4.1 ++ h.1 ++ [':'] ++ mi.1 ++ s5.1 ++ [ap.1] ++
     ap.2.take 1 ++ s6.1 ++ tz.1, tz.2)

/-- `<label>[:\s]+(<strict timestamp>)` (IGNORECASE) at a position, with the
captured group stripped (`.strip()` in the code). -/
def labelStrictAt (label : List Char) (s : List Char) : Option (List Char) :=
  ((litCI label s).map fun r =>
    ((runAlts isColonWs r).flatMap fun sr =>
      labeledTSAlts sr.2).head?.map fun gr => pyStripL gr.1).getD none

/-- The timezone/meridiem token alternation of the fallback pattern, in
pattern order. -/
def tzTokensCI : List (List Char) :=
  ["AM".toList, "PM".toList, "EDT".toList, "EST".toList, "MDT".toList,
   "MST".toList, "PDT".toList, "PST".toList, "CDT".toList, "CST".toList]

/-- `[^,\n\r]`. -/
def isNotCommaNl (c : Char) : Bool := !(c = ',' || c = '\n' || c = '\r')

/-- `([^,\n\r]+?(?:AM|PM|EDT|EST|MDT|MST|PDT|PST|CDT|CST))`: lazy body
shortest first, then the token alternation in order. -/
def fallbackBodyAlts (s : List Char) : List (List Char × List Char) :=
  (lazyAlts isNotCommaNl s).flatMap fun br =>
    tzTokensCI.flatMap fun tok =>
      ((litCI tok br.2).map fun rest =>
        [(br.1 ++ br.2.take tok.length, rest)]).getD []

/-- `<label>[:\s]*(<fallback group>)` (IGNORECASE, lines 143/156) at a
position, group stripped. -/
def labelFallbackAt (label : List Char) (s : List Char) : Option (List Char) :=
  ((litCI label s).map fun r =>
    ((starAlts isColonWs r).flatMap fun sr =>
      fallbackBodyAlts sr.2).head?.map fun gr => pyStripL gr.1).getD none

/-- The weekday alternation
`(?:Sunday|Monday|Tuesday|Wednesday|Thursday|Friday|Saturday)` (IGNORECASE),
keeping the text as it appears in the page. -/
def weekdayAltsCI (s : List Char) : List (List Char × List Char) :=
  ["Sunday".toList, "Monday".toList, "Tuesday".toList, "Wednesday".toList,
   "Thursday".toList, "Friday".toList, "Saturday".toList].flatMap fun w =>
    ((litCI w s).map fun r => [(s.take w.length, r)]).getD []

/-- `((?:Sunday|…|Saturday)\s+night,\s+[A-Za-z]+\s+\d{1,2})` (IGNORECASE,
line 163) at a position. -/
def migDateClassAt (s : List Char) : Option (List Char) :=
  ((weekdayAltsCI s).flatMap fun w =>
    (runAlts isPyWs w.2).flatMap fun s1 =>
    ((litCI "night,".toList s1.2).map fun r2 =>
      (runAlts isPyWs r2).flatMap fun s2 =>
      (runAlts isAsciiAlpha s2.2).flatMap fun m =>
      (runAlts isPyWs m.2).flatMap fun s3 =>
      (charsUpTo Char.isDigit 2 s3.2).map fun d =>
      (w.1 ++ s1.1 ++ (s1.2.take 6) ++ s2.1 ++ m.1 ++ s3.1 ++ d.1, d.2)).getD
      []).head?.map fun gr => gr.1

/-- The record produced by `BirdCastScraper.scrape_single_url`
(`birdcast_scraper.py`, lines 70–175) for a page text, omitting the constant
`scrape_timestamp`.  The `*_utc` fields model dict keys that are present
exactly when the corresponding raw match was found (their value is the class
normalizer's output). -/
structure ClassData where
  url : List Char
  region_code : Option (List Char)
  region_name : Option (List Char)
  total_birds : Option Nat
  peak_birds_in_flight : Option Nat
  flight_direction : Option (List Char)
  flight_speed_mph : Option Nat
  flight_altitude_ft : Option Nat
  migration_start_raw : Option (List Char)
  migration_start_utc : Option (Option String)
  migration_end_raw : Option (List Char)
  migration_end_utc : Option (Option String)
  migration_date : Option (List Char)
  debug_content_sample : Option (List Char)
deriving DecidableEq, Repr

/-- `1` when the dict key is present. -/
def flag {α : Type} (o : Option α) : Nat := if o.isSome then 1 else 0

/-- `len(data)`: the two base keys `scrape_timestamp`/`url` plus one per
extracted field (the diagnostic key is not counted — the code computes
`len(data)` before inserting it). -/
def fieldCount (d : ClassData) : Nat :=
  2 + flag d.region_code + flag d.region_name + flag d.total_birds +
    flag d.peak_birds_in_flight + flag d.flight_direction +
    flag d.flight_speed_mph + flag d.flight_altitude_ft +
    flag d.migration_start_raw + flag d.migration_start_utc +
    flag d.migration_end_raw + flag d.migration_end_utc +
    flag d.migration_date

/-- The data dict of `BirdCastScraper.scrape_single_url` before the
`len(data) > 2` diagnostic check.  Timing fields: the labelled strict pattern
is tried first, the looser label fallback only when it found nothing
(lines 136–160). -/
def mkData (url text : List Char) : ClassData :=
  let startRaw : Option (List Char) :=
    match searchOpt (labelStrictAt "Starting".toList) text with
    | some r => some r
    | none => searchOpt (labelFallbackAt "Starting".toList) text
  let endRaw : Option (List Char) :=
    match searchOpt (labelStrictAt "Ending".toList) text with
    | some r => some r
    | none => searchOpt (labelFallbackAt "Ending".toList) text
  { url := url
    region_code := searchOpt regionCodeAt url
    region_name := searchOpt regionNameAt text
    total_birds := total_birds_match text
    peak_birds_in_flight := (searchOpt peakClassAt text).map intOfGroup
    flight_direction := searchOpt directionClassAt text
    flight_speed_mph := (searchOpt speedClassAt text).map decVal
    flight_altitude_ft := (searchOpt altitudeClassAt text).map intOfGroup
    migration_start_raw := startRaw
    migration_start_utc := startRaw.map fun r => parse_datetime_string ⟨r⟩
    migration_end_raw := endRaw
    migration_end_utc := endRaw.map fun r => parse_datetime_string ⟨r⟩
    migration_date := searchOpt migDateClassAt text
    debug_content_sample := none }

/-- `scrape_single_url(url)` of `birdcast_scraper.py`, given the fetched page
text.  If, counting `scrape_timestamp` and `url`, no more than two keys were
set — i.e. nothing was extracted, `region_code` included — a ≤500-character
sample of the page text (`"No text content"` when the text is empty) is
attached as `debug_content_sample` (lines 168–173). -/
def scrape_single_url (url text : List Char) : ClassData :=
  if 2 < fieldCount (mkData url text) then mkData url text
  else { mkData url text with
    debug_content_sample :=
      some (if text.isEmpty then "No text content".toList else text.take 500) }

end BirdcastScraper

/-! ## C7: the migration start/end timestamps -/
/-- Characters that can appear between the timestamps without creating or
disturbing a strict-pattern match (the pattern begins with a letter). -/
def tsSafe (c : Char) : Bool := c = ' ' || c = '.' || c = '\n'

/-! ## Theorems -/

/-! ### Lemmas about the sort and the dedup -/
theorem mem_insertDesc {r x : Row} : ∀ {l : List Row},
    x ∈ insertDesc r l ↔ x = r ∨ x ∈ l := by
  intro l
  induction l with
  | nil => simp [insertDesc]
  | cons s ss ih =>
    simp only [insertDesc]
    split
    · simp
    · simp only [List.mem_cons, ih]
      tauto

theorem mem_sortTsDesc {x : Row} : ∀ {l : List Row},
    x ∈ sortTsDesc l ↔ x ∈ l := by
  intro l
  induction l with
  | nil => simp [sortTsDesc]
  | cons r rs ih => simp [sortTsDesc, mem_insertDesc, ih]

theorem pairwise_insertDesc {r : Row} : ∀ {l : List Row},
    l.Pairwise tsGE → (insertDesc r l).Pairwise tsGE := by
  intro l
  induction l with
  | nil => intro _; simp [insertDesc, tsGE]
  | cons s ss ih =>
    intro h
    rw [List.pairwise_cons] at h
    simp only [insertDesc]
    split
    · rename_i hlt
      refine List.Pairwise.cons ?_ (List.Pairwise.cons h.1 h.2)
      intro b hb
      rcases List.mem_cons.mp hb with rfl | hb
      · exact Nat.le_of_lt hlt
      · exact Nat.le_trans (h.1 b hb) (Nat.le_of_lt hlt)
    · rename_i hge
      refine List.Pairwise.cons ?_ (ih h.2)
      intro b hb
      rcases mem_insertDesc.mp hb with rfl | hb
      · exact Nat.le_of_not_lt hge
      · exact h.1 b hb

theorem pairwise_sortTsDesc : ∀ {l : List Row}, (sortTsDesc l).Pairwise tsGE := by
  intro l
  induction l with
  | nil => simp [sortTsDesc]
  | cons r rs ih => exact pairwise_insertDesc ih

theorem mem_dropDupAux {K : Type} [DecidableEq K] {key : Row → K} :
    ∀ {l : List Row} {seen : List K} {x : Row}, x ∈ dropDupAux key seen l → x ∈ l := by
  intro l
  induction l with
  | nil => intro _ x hx; simp [dropDupAux] at hx
  | cons r rs ih =>
    intro seen x hx
    rw [dropDupAux] at hx
    split at hx
    · exact List.mem_cons_of_mem _ (ih hx)
    · rcases List.mem_cons.mp hx with hxr | hx
      · exact hxr ▸ List.mem_cons_self _ _
      · exact List.mem_cons_of_mem _ (ih hx)

theorem key_not_seen_of_mem_dropDupAux {K : Type} [DecidableEq K] {key : Row → K} :
    ∀ {l : List Row} {seen : List K} {x : Row},
      x ∈ dropDupAux key seen l → key x ∉ seen := by
  intro l
  induction l with
  | nil => intro _ x hx; simp [dropDupAux] at hx
  | cons r rs ih =>
    intro seen x hx
    rw [dropDupAux] at hx
    split at hx
    · exact ih hx
    · rcases List.mem_cons.mp hx with hxr | hx
      · rename_i hns; exact hxr ▸ hns
      · intro hseen
        exact (ih hx) (List.mem_cons_of_mem _ hseen)

theorem dropDupAux_keys_pairwise {K : Type} [DecidableEq K] {key : Row → K} :
    ∀ {l : List Row} {seen : List K},
      (dropDupAux key seen l).Pairwise (fun a b => key a ≠ key b) := by
  intro l
  induction l with
  | nil => intro _; simp [dropDupAux]
  | cons r rs ih =>
    intro seen
    rw [dropDupAux]
    split
    · exact ih
    · refine List.Pairwise.cons ?_ ih
      intro b hb hkey
      exact (key_not_seen_of_mem_dropDupAux hb) (hkey ▸ List.mem_cons_self _ _)

theorem dropDuplicates_subset {K : Type} [DecidableEq K] {key : Row → K}
    {l : List Row} {x : Row} (hx : x ∈ dropDuplicates key l) : x ∈ l :=
  mem_dropDupAux hx

theorem dropDuplicates_keys_pairwise {K : Type} [DecidableEq K] (key : Row → K)
    {l : List Row} :
    (dropDuplicates key l).Pairwise (fun a b => key a ≠ key b) :=
  dropDupAux_keys_pairwise

/-- Every key present in the remaining rows but not yet seen has a
representative among the kept rows, and — when the input is sorted
descending — that representative has a timestamp at least as large as every
such row with the same key. -/
theorem dropDupAux_exists_ge {K : Type} [DecidableEq K] {key : Row → K} :
    ∀ {l : List Row} (seen : List K), l.Pairwise tsGE → ∀ {x : Row}, x ∈ l →
      key x ∉ seen →
      ∃ y ∈ dropDupAux key seen l, key y = key x ∧
        x.scrape_timestamp ≤ y.scrape_timestamp := by
  intro l
  induction l with
  | nil => intro _ _ x hx; simp at hx
  | cons r rs ih =>
    intro seen hp x hx hns
    rw [List.pairwise_cons] at hp
    rw [dropDupAux]
    rcases List.mem_cons.mp hx with hxr | hx
    · rw [if_neg (hxr ▸ hns)]
      exact ⟨r, List.mem_cons_self _ _, by rw [hxr], by rw [hxr]⟩
    · by_cases hk : key x = key r
      · rw [if_neg (hk ▸ hns)]
        exact ⟨r, List.mem_cons_self _ _, hk.symm, hp.1 x hx⟩
      · split
        · exact ih seen hp.2 hx hns
        · obtain ⟨y, hy, hkey, hle⟩ := ih (key r :: seen) hp.2 hx
            (by
              intro hmem
              rcases List.mem_cons.mp hmem with h | h
              · exact hk h
              · exact hns h)
          exact ⟨y, List.mem_cons_of_mem _ hy, hkey, hle⟩

theorem dropDuplicates_exists_ge {K : Type} [DecidableEq K] (key : Row → K)
    {l : List Row} (hp : l.Pairwise tsGE) {x : Row} (hx : x ∈ l) :
    ∃ y ∈ dropDuplicates key l, key y = key x ∧
      x.scrape_timestamp ≤ y.scrape_timestamp :=
  dropDupAux_exists_ge [] hp hx (by simp)

/-- In a list whose keys are pairwise distinct, two members with equal keys are
the same element. -/
theorem pairwise_ne_key_inj {α K : Type} {key : α → K} :
    ∀ {m : List α}, m.Pairwise (fun a b => key a ≠ key b) →
      ∀ {a b : α}, a ∈ m → b ∈ m → key a = key b → a = b := by
  intro m
  induction m with
  | nil => intro _ a b ha; simp at ha
  | cons c cs ih =>
    intro hp a b ha hb hk
    rw [List.pairwise_cons] at hp
    rcases List.mem_cons.mp ha with hac | ha <;> rcases List.mem_cons.mp hb with hbc | hb
    · rw [hac, hbc]
    · rw [hac] at hk ⊢; exact absurd hk (hp.1 b hb)
    · rw [hbc] at hk ⊢; exact absurd hk.symm (hp.1 a ha)
    · exact ih hp.2 ha hb hk

/-- Two kept rows with the same key are the same row. -/
theorem dropDuplicates_key_injOn {K : Type} [DecidableEq K] {key : Row → K}
    {l : List Row} {a b : Row} (ha : a ∈ dropDuplicates key l)
    (hb : b ∈ dropDuplicates key l) (hk : key a = key b) : a = b :=
  pairwise_ne_key_inj (dropDuplicates_keys_pairwise key (l := l)) ha hb hk

/-- Rows of the combined frame that agree on the spec's per-row day-key also
agree on the code's `date_key` column (a row with `migration_date` present
forces the column to exist). -/
theorem specDayKey_eq_imp_date_key_eq {combined : List Row} {r1 r2 : Row}
    (h1 : r1 ∈ combined) (hspec : specDayKey r1 = specDayKey r2) :
    date_key (colExists combined (·.migration_date)) r1
      = date_key (colExists combined (·.migration_date)) r2 := by
  unfold specDayKey at hspec
  unfold date_key
  cases hm1 : r1.migration_date with
  | some s1 =>
    cases hm2 : r2.migration_date with
    | some s2 =>
      rw [hm1, hm2] at hspec
      have hcol : colExists combined (·.migration_date) = true := by
        unfold colExists
        rw [List.any_eq_true]
        exact ⟨r1, h1, by simp [hm1]⟩
      simp only [hcol, if_true, hm1, hm2]
      simpa using hspec
    | none => rw [hm1, hm2] at hspec; simp at hspec
  | none =>
    cases hm2 : r2.migration_date with
    | some s2 => rw [hm1, hm2] at hspec; simp at hspec
    | none =>
      rw [hm1, hm2] at hspec
      simp only [Sum.inr.injEq] at hspec
      cases colExists combined (·.migration_date) with
      | true => simp [hm1, hm2]
      | false => simp [hspec]

/-- **C1.** For every persist on a dataset, at most one row survives per
(`region_code`, day-key) pair — formalised as: the survivors of
`persistRows` are pairwise free of (present-`region_code`, spec day-key)
collisions — and whenever two rows of the combined data (current batch or
previously stored history) share a present `region_code` and the day-key but
have differing `scrape_timestamp`s, the older row does not survive, i.e. the
surviving row for that pair is the one with the latest `scrape_timestamp`.
(An empty batch leaves the dataset file untouched — the `save_to_parquet`
early return, settled separately — so the invariant holds after every
persist of any sequence of calls.) -/
theorem persist_dedup_invariant (data_list existing : List Row) :
    (persistRows data_list existing).Pairwise
      (fun a b => ¬(a.region_code.isSome ∧ a.region_code = b.region_code ∧
        specDayKey a = specDayKey b))
  ∧ ∀ r1 ∈ existing ++ data_list, ∀ r2 ∈ existing ++ data_list,
      r1.region_code.isSome → r1.region_code = r2.region_code →
      specDayKey r1 = specDayKey r2 →
      r1.scrape_timestamp < r2.scrape_timestamp →
      r1 ∉ persistRows data_list existing := by
  constructor
  · unfold persistRows
    by_cases hcol : colExists (existing ++ data_list) (·.region_code) = true
    · simp only [hcol, if_true]
      refine List.Pairwise.imp_of_mem ?_
        (dropDuplicates_keys_pairwise
          (dedupKey (colExists (existing ++ data_list) (·.migration_date))))
      intro a b ha hb hne
      rintro ⟨hsome, hreg, hspec⟩
      have ha' : a ∈ existing ++ data_list :=
        mem_sortTsDesc.mp (dropDuplicates_subset ha)
      exact hne (by
        unfold dedupKey
        rw [hreg, specDayKey_eq_imp_date_key_eq ha' hspec])
    · have hcol' : colExists (existing ++ data_list) (·.region_code) = false := by
        simpa using hcol
      have hnone : ∀ r ∈ existing ++ data_list, r.region_code.isSome = false := by
        intro r hr
        have := List.any_eq_false.mp hcol' r hr
        simpa using this
      rw [if_neg hcol]
      exact List.pairwise_of_forall_mem_list fun a ha b _ h =>
        absurd h.1 (by rw [hnone a ha]; simp)
  · intro r1 hr1 r2 hr2 hsome hreg hspec hlt hmem
    have hcol : colExists (existing ++ data_list) (·.region_code) = true := by
      unfold colExists
      rw [List.any_eq_true]
      exact ⟨r1, hr1, hsome⟩
    rw [persistRows] at hmem
    simp only [hcol, if_true] at hmem
    set migCol := colExists (existing ++ data_list) (·.migration_date) with hmig
    have hsorted := pairwise_sortTsDesc (l := existing ++ data_list)
    obtain ⟨y, hy, hkey, hle⟩ :=
      dropDuplicates_exists_ge (dedupKey migCol) hsorted
        (mem_sortTsDesc.mpr hr2)
    have hk12 : dedupKey migCol r1 = dedupKey migCol r2 := by
      unfold dedupKey
      rw [hreg, specDayKey_eq_imp_date_key_eq hr1 hspec]
    have : r1 = y := dropDuplicates_key_injOn hmem hy (by rw [hk12, hkey])
    rw [← this] at hle
    exact absurd (Nat.lt_of_lt_of_le hlt hle) (Nat.lt_irrefl _)

/-- Witness for C1: two batch rows for region `US-FL-031`, both without
`migration_date` and scraped on the same UTC day, at timestamps 100 < 200; the
older row does not survive the persist. -/
theorem persist_dedup_invariant_witness :
    (⟨100, some "US-FL-031", none, 0⟩ : Row) ∉
      persistRows [⟨100, some "US-FL-031", none, 0⟩, ⟨200, some "US-FL-031", none, 1⟩] [] :=
  (persist_dedup_invariant
      [⟨100, some "US-FL-031", none, 0⟩, ⟨200, some "US-FL-031", none, 1⟩] []).2
    ⟨100, some "US-FL-031", none, 0⟩ (by decide)
    ⟨200, some "US-FL-031", none, 1⟩ (by decide)
    (by decide) (by decide) (by decide) (by decide)

/-- **C4 counterexample.** In a mixed combined frame — row `A` carries
`migration_date`, row `B` does not — the code's `date_key` for `B` is NaN
(`none`), not the calendar date of `B`'s `scrape_timestamp` as the claim
states: the day-key branch is chosen per column, not per row. -/
theorem date_key_not_per_row :
    dateKeyOf
        [⟨100, some "US-FL-031", some "Friday night, Oct 24", 0⟩,
         ⟨200000, some "US-CO-013", none, 1⟩]
        ⟨200000, some "US-CO-013", none, 1⟩
      ≠ some (specDayKey ⟨200000, some "US-CO-013", none, 1⟩) := by
  decide

/-- **C4 (amended).** The day-key branch of `save_to_parquet` is per column:
a row with `migration_date` present always gets it as its day-key; a row
without one gets the calendar date of its `scrape_timestamp` only when **no**
row of the combined frame has `migration_date`, and gets a null key when any
other row does. -/
theorem date_key_column_level (combined : List Row) (r : Row) (hr : r ∈ combined) :
    (∀ s, r.migration_date = some s → dateKeyOf combined r = some (Sum.inl s))
  ∧ (r.migration_date = none → colExists combined (·.migration_date) = false →
      dateKeyOf combined r = some (Sum.inr (r.scrape_timestamp / 86400)))
  ∧ (r.migration_date = none → colExists combined (·.migration_date) = true →
      dateKeyOf combined r = none) := by
  refine ⟨?_, ?_, ?_⟩
  · intro s hs
    have hcol : colExists combined (·.migration_date) = true := by
      unfold colExists
      rw [List.any_eq_true]
      exact ⟨r, hr, by simp [hs]⟩
    unfold dateKeyOf date_key
    rw [hcol, if_pos rfl, hs]
    rfl
  · intro hnone hcol
    unfold dateKeyOf date_key
    rw [hcol]
    simp
  · intro hnone hcol
    unfold dateKeyOf date_key
    rw [hcol, if_pos rfl, hnone]
    rfl

/-- Witness for C4 (amended): a row carrying `migration_date` keeps it as its
day-key. -/
theorem date_key_column_level_witness :
    dateKeyOf
        [⟨100, some "US-FL-031", some "Friday night, Oct 24", 0⟩,
         ⟨200000, some "US-CO-013", none, 1⟩]
        ⟨100, some "US-FL-031", some "Friday night, Oct 24", 0⟩
      = some (Sum.inl "Friday night, Oct 24") :=
  (date_key_column_level _ _ (by decide)).1 "Friday night, Oct 24" rfl

/-- **C5 counterexample.** Two distinct rows both lacking `region_code` — the
claim says persist never merges them — are deduplicated against each other as
soon as any other row of the frame has a `region_code` (pandas
`drop_duplicates` treats the NaN keys as equal): the older row does not
survive. -/
theorem absent_region_rows_merged :
    (⟨100, none, none, 1⟩ : Row) ∉
      persistRows
        [⟨50, some "US-FL-031", none, 0⟩, ⟨100, none, none, 1⟩, ⟨200, none, none, 2⟩]
        [] := by
  decide

/-- **C5 (amended).** Rows lacking `region_code` escape deduplication only
when no row of the combined frame has a `region_code` at all: then the
`region_code` column is missing, the dedup step is skipped wholesale, and the
persist keeps every row unchanged.  (When any row has one, rows lacking
`region_code` share a null key and are merged whenever their date keys
coincide, as the counterexample above shows.) -/
theorem no_dedup_without_region_column (data_list existing : List Row)
    (h : ∀ r ∈ existing ++ data_list, r.region_code = none) :
    persistRows data_list existing = existing ++ data_list := by
  have hcol : colExists (existing ++ data_list) (·.region_code) = false := by
    unfold colExists
    rw [List.any_eq_false]
    intro r hr
    simp [h r hr]
  unfold persistRows
  rw [if_neg (by rw [hcol]; simp)]

/-- Witness for C5 (amended): a batch of two region-less rows on the same day
is persisted without any merge. -/
theorem no_dedup_without_region_column_witness :
    persistRows [⟨100, none, none, 1⟩, ⟨200, none, none, 2⟩] []
      = [⟨100, none, none, 1⟩, ⟨200, none, none, 2⟩] :=
  no_dedup_without_region_column [⟨100, none, none, 1⟩, ⟨200, none, none, 2⟩] []
    (by decide)

/-- **C10.** Persisting an empty (falsy) record list is a no-op: the call
returns before any file I/O — the dataset file is neither read, created nor
rewritten, whatever its current state. -/
theorem save_to_parquet_empty_noop (file : Option (List Row)) :
    save_to_parquet [] file = (file, false) := by
  simp [save_to_parquet]

/-- **C2 (code bug).** Normalizing `"Sun, Aug 17, 2025, 8:10 PM EDT"` does
*not* yield `2025-08-18T00:10:00+00:00`: `dateutil.parser.parse` is called
without a `tzinfos` mapping, so the named abbreviation `EDT` cannot be
resolved (it is dropped with an `UnknownTimezoneWarning` on any host not in
US-Eastern local time); the naive result is then localized as UTC, producing
`2025-08-17T20:10:00+00:00` — the EDT-labelled local time treated as if it
were already UTC, against the code's own comment ("handle common formats like
'Sun, Aug 17, 2025, 8:10 PM EDT'", "Convert to UTC") and the spec's intent. -/
theorem parse_edt_treated_as_utc :
    ScraperUtils.parse_datetime_string "Sun, Aug 17, 2025, 8:10 PM EDT"
        = "2025-08-17T20:10:00+00:00"
    ∧ ScraperUtils.parse_datetime_string "Sun, Aug 17, 2025, 8:10 PM EDT"
        ≠ "2025-08-18T00:10:00+00:00" := by
  constructor
  · decide
  · decide

/-- **C6 counterexample.** On a parse failure the normalizer does not return
the original raw string verbatim: internal whitespace runs have been
collapsed by the line-76 rebinding before the failing parse. -/
theorem parse_failure_not_verbatim :
    ScraperUtils.parse_datetime_string "not  a  date" ≠ "not  a  date" := by
  decide

/-- **C6 (amended).** For every non-empty input on which the datetime parse
fails, the normalizer returns the *whitespace-normalized* input (tokens
joined by single spaces — equal to the original only when the original has no
leading/trailing whitespace or internal runs) and does not raise. -/
theorem parse_failure_returns_squashed (s : String) (hne : s ≠ "")
    (hfail : dateutilParse (squash s).toList = none) :
    ScraperUtils.parse_datetime_string s = squash s := by
  simp only [ScraperUtils.parse_datetime_string, if_neg hne, hfail]

/-- Witness for C6 (amended) at the unparsable input `"not  a  date"`. -/
theorem parse_failure_returns_squashed_witness :
    ScraperUtils.parse_datetime_string "not  a  date" = squash "not  a  date" :=
  parse_failure_returns_squashed "not  a  date" (by decide) (by decide)

theorem charsExact_none {p : Char → Bool} {t : List Char} (h : headNot p t) :
    ∀ k, charsExact p (k + 1) t = none := by
  intro k
  cases t with
  | nil => rfl
  | cons c s =>
    unfold headNot at h
    simp [charsExact, h]

theorem charsUpTo_nil_of_head {p : Char → Bool} {t : List Char}
    (h : headNot p t) : ∀ n, charsUpTo p n t = [] := by
  intro n
  induction n with
  | zero => rfl
  | succ k ih =>
    rw [charsUpTo, charsExact_none h, ih]
    rfl

/-- `charsExact` consumes exactly a length-`k` all-`p` prefix. -/
theorem charsExact_append {p : Char → Bool} :
    ∀ {g : List Char}, (∀ c ∈ g, p c = true) → ∀ {t : List Char},
      charsExact p g.length (g ++ t) = some (g, t) := by
  intro g
  induction g with
  | nil => intro _ t; rfl
  | cons c g' ih =>
    intro h t
    have hc : p c = true := h c (List.mem_cons_self _ _)
    have ih' := ih (fun d hd => h d (List.mem_cons_of_mem _ hd)) (t := t)
    simp [charsExact, hc, ih']

/-- On a string starting with a maximal `p`-run of length 1–3, the head
alternative of `p{1,3}` is that whole run. -/
theorem charsUpTo3_head {p : Char → Bool} {g t : List Char}
    (hlen : 1 ≤ g.length ∧ g.length ≤ 3) (hg : ∀ c ∈ g, p c = true)
    (ht : headNot p t) :
    ∃ tl, charsUpTo p 3 (g ++ t) = (g, t) :: tl := by
  match g, hlen with
  | [a], _ =>
    have ha : p a = true := hg a (by simp)
    have h3 : charsExact p 3 (a :: t) = none := by
      cases t with
      | nil => simp [charsExact, ha]
      | cons c s =>
        unfold headNot at ht
        simp [charsExact, ha, ht]
    have h2 : charsExact p 2 (a :: t) = none := by
      cases t with
      | nil => simp [charsExact, ha]
      | cons c s =>
        unfold headNot at ht
        simp [charsExact, ha, ht]
    have h1 : charsExact p 1 (a :: t) = some ([a], t) :=
      charsExact_append (g := [a]) (by simpa using ha)
    refine ⟨[], ?_⟩
    simp only [charsUpTo, List.cons_append, List.nil_append]
    rw [h3, h2, h1]
    rfl
  | [a, b], _ =>
    have ha : p a = true := hg a (by simp)
    have hb : p b = true := hg b (by simp)
    have h3 : charsExact p 3 (a :: b :: t) = none := by
      cases t with
      | nil => simp [charsExact, ha, hb]
      | cons c s =>
        unfold headNot at ht
        simp [charsExact, ha, hb, ht]
    have h2 : charsExact p 2 (a :: b :: t) = some ([a, b], t) :=
      charsExact_append (g := [a, b]) (by simp [ha, hb])
    refine ⟨charsUpTo p 1 (a :: b :: t), ?_⟩
    simp only [charsUpTo, List.cons_append, List.nil_append]
    rw [h3, h2]
    rfl
  | [a, b, c], _ =>
    have h3 : charsExact p 3 (a :: b :: c :: t) = some ([a, b, c], t) :=
      charsExact_append (g := [a, b, c])
        (by simp [hg a (by simp), hg b (by simp), hg c (by simp)])
    refine ⟨charsUpTo p 2 (a :: b :: c :: t), ?_⟩
    simp only [charsUpTo, List.cons_append, List.nil_append]
    rw [h3]
    rfl

theorem sep3Alts_nil {t : List Char} (h : numStop t) : sep3Alts t = [] := by
  obtain ⟨hd, hc⟩ := h
  cases t with
  | nil => rfl
  | cons c s =>
    unfold headNot at hd hc
    have hc' : ¬ c = ',' := by simpa using hc
    simp [sep3Alts, hc', charsExact, hd]

/-- On a string starting with well-formed thousands groups followed by a stop
character, the head alternative of `(?:,?\d{3})*` is all the groups. -/
theorem starSep3_head {gs : List (List Char)} {t : List Char}
    (hgs : ∀ g ∈ gs, g.length = 3 ∧ (∀ c ∈ g, Char.isDigit c = true))
    (ht : numStop t) :
    ∀ fuel, gs.length ≤ fuel →
      ∃ tl, starSep3 fuel (gsCat gs ++ t) = (gsCat gs, t) :: tl := by
  induction gs with
  | nil =>
    intro fuel _
    cases fuel with
    | zero => exact ⟨[], rfl⟩
    | succ f =>
      refine ⟨[], ?_⟩
      rw [starSep3]
      rw [show gsCat [] ++ t = t from rfl, sep3Alts_nil ht]
      rfl
  | cons g gs' ih =>
    intro fuel hfuel
    cases fuel with
    | zero => simp at hfuel
    | succ f =>
      have hg := hgs g (List.mem_cons_self _ _)
      have hx : charsExact Char.isDigit 3 (g ++ (gsCat gs' ++ t))
          = some (g, gsCat gs' ++ t) := by
        have := charsExact_append (p := Char.isDigit) (g := g) hg.2
          (t := gsCat gs' ++ t)
        rwa [hg.1] at this
      obtain ⟨tl', htl'⟩ := ih (fun g' hg' => hgs g' (List.mem_cons_of_mem _ hg'))
        f (Nat.le_of_succ_le_succ hfuel)
      have hcat : gsCat (g :: gs') ++ t = ',' :: (g ++ (gsCat gs' ++ t)) := by
        simp [gsCat, List.flatMap_cons]
      refine ⟨tl'.map (fun gr2 => ((',' :: g) ++ gr2.1, gr2.2)) ++
        [([], gsCat (g :: gs') ++ t)], ?_⟩
      rw [hcat, starSep3]
      have hsep : sep3Alts (',' :: (g ++ (gsCat gs' ++ t)))
          = [(',' :: g, gsCat gs' ++ t)] := by
        simp [sep3Alts, hx, charsExact]
      rw [hsep]
      simp only [List.flatMap_cons, List.flatMap_nil, List.append_nil, htl',
        List.map_cons]
      rw [← hcat]
      simp [gsCat, List.flatMap_cons, List.append_assoc]

theorem pyWs_cases {c : Char} (h : isPyWs c = true) :
    c = ' ' ∨ c = '\t' ∨ c = '\n' ∨ c = '\r' ∨ c = '\x0b' ∨ c = '\x0c' := by
  simpa [isPyWs, Bool.or_eq_true, decide_eq_true_eq, or_assoc] using h

theorem pyWs_stop {c : Char} (h : isPyWs c = true) :
    Char.isDigit c = false ∧ (c == ',') = false := by
  rcases pyWs_cases h with rfl | rfl | rfl | rfl | rfl | rfl <;> exact ⟨rfl, rfl⟩

/-- A string starting with a whitespace character satisfies the numeral stop
condition. -/
theorem numStop_of_ws_head {c : Char} {s : List Char} (h : isPyWs c = true) :
    numStop (c :: s) :=
  ⟨(pyWs_stop h).1, (pyWs_stop h).2⟩

theorem gs_length_le_gsCat (gs : List (List Char)) :
    gs.length ≤ (gsCat gs).length := by
  induction gs with
  | nil => simp [gsCat]
  | cons g gs' ih =>
    simp only [gsCat, List.flatMap_cons, List.length_append, List.length_cons] at *
    omega

/-- On a well-formed numeral followed by a stop character, the head
alternative of the capture group `(\d{1,3}(?:,?\d{3})*)` is the whole
numeral. -/
theorem numGroupAlts_head {g0 : List Char} {gs : List (List Char)} {t : List Char}
    (hnum : wellNum g0 gs) (ht : numStop t) :
    ∃ tl, numGroupAlts (numeral g0 gs ++ t) = (numeral g0 gs, t) :: tl := by
  obtain ⟨h1, h3, hg0, hgs⟩ := hnum
  have hmid : headNot Char.isDigit (gsCat gs ++ t) := by
    cases gs with
    | nil => exact ht.1
    | cons g gs' =>
      have hrw : gsCat (g :: gs') ++ t = ',' :: (g ++ (gsCat gs' ++ t)) := by
        simp [gsCat, List.flatMap_cons]
      rw [hrw]
      show Char.isDigit ',' = false
      rfl
  obtain ⟨tlA, htlA⟩ := charsUpTo3_head (p := Char.isDigit) ⟨h1, h3⟩ hg0 hmid
    (t := gsCat gs ++ t)
  obtain ⟨tlB, htlB⟩ := starSep3_head hgs ht (gsCat gs ++ t).length
    (by
      have := gs_length_le_gsCat gs
      simp only [List.length_append]
      omega)
  refine ⟨(tlB.map fun gr2 => (g0 ++ gr2.1, gr2.2)) ++
    tlA.flatMap (fun gr => (starSep3 gr.2.length gr.2).map fun gr2 =>
      (gr.1 ++ gr2.1, gr2.2)), ?_⟩
  unfold numGroupAlts
  rw [show numeral g0 gs ++ t = g0 ++ (gsCat gs ++ t) by
    simp [numeral, List.append_assoc]]
  rw [htlA]
  simp only [List.flatMap_cons, htlB, List.map_cons]
  rfl

theorem litCS_append : ∀ (p t : List Char), litCS p (p ++ t) = some t := by
  intro p
  induction p with
  | nil => intro t; rfl
  | cons c p' ih => intro t; simp [litCS, ih]

theorem litCI_append_of_ciEq : ∀ {p q : List Char}, ciEq q p →
    ∀ (t : List Char), litCI p (q ++ t) = some t := by
  intro p
  induction p with
  | nil =>
    intro q hq t
    unfold ciEq at hq
    simp only [List.map_nil, List.map_eq_nil_iff] at hq
    rw [hq]
    rfl
  | cons c p' ih =>
    intro q hq t
    unfold ciEq at hq
    cases q with
    | nil => simp at hq
    | cons d q' =>
      simp only [List.map_cons, List.cons.injEq] at hq
      simp [litCS, litCI, hq.1, ih hq.2]

theorem litCI_append (p t : List Char) : litCI p (p ++ t) = some t :=
  litCI_append_of_ciEq rfl t

/-- A full `p`-run delimited on the right is among the `p+` alternatives. -/
theorem runAlts_full_mem {p : Char → Bool} :
    ∀ {ws t : List Char}, ws ≠ [] → (∀ c ∈ ws, p c = true) →
      (ws, t) ∈ runAlts p (ws ++ t) := by
  intro ws
  induction ws with
  | nil => intro _ h; simp at h
  | cons c ws' ih =>
    intro t _ hall
    have hc : p c = true := hall c (List.mem_cons_self _ _)
    rw [List.cons_append, runAlts, if_pos hc]
    cases ws' with
    | nil => simp
    | cons d ws'' =>
      have hmem := ih (t := t) (by simp)
        (fun e he => hall e (List.mem_cons_of_mem _ he))
      rw [List.mem_append]
      left
      exact List.mem_map.mpr ⟨(d :: ws'', t), hmem, rfl⟩

theorem dotStar_nil_mem : ∀ (s : List Char), ([], s) ∈ dotStarAlts s := by
  intro s
  cases s with
  | nil => simp [dotStarAlts]
  | cons c s' =>
    rw [dotStarAlts]
    split
    · simp
    · simp

/-- Any newline-free prefix is among the `.*` alternatives. -/
theorem dotStar_mem : ∀ {mid t : List Char}, (∀ c ∈ mid, ¬ c = '\n') →
    (mid, t) ∈ dotStarAlts (mid ++ t) := by
  intro mid
  induction mid with
  | nil => intro t _; exact dotStar_nil_mem t
  | cons c mid' ih =>
    intro t h
    rw [List.cons_append, dotStarAlts,
      if_neg (h c (List.mem_cons_self _ _))]
    rw [List.mem_append]
    left
    exact List.mem_map.mpr ⟨(mid', t), ih fun e he => h e (List.mem_cons_of_mem _ he), rfl⟩

/-- `re.search` skips positions whose head character rules the pattern out. -/
theorem searchOpt_skip {α : Type} {f : List Char → Option α} {q : Char → Bool}
    (hf : ∀ c s, q c = true → f (c :: s) = none) :
    ∀ {pre : List Char} (t : List Char), (∀ c ∈ pre, q c = true) →
      searchOpt f (pre ++ t) = searchOpt f t := by
  intro pre
  induction pre with
  | nil => intro t _; rfl
  | cons c pre' ih =>
    intro t h
    rw [List.cons_append, searchOpt, hf c _ (h c (List.mem_cons_self _ _))]
    exact ih t fun e he => h e (List.mem_cons_of_mem _ he)

theorem searchOpt_cons_of_some {α : Type} {f : List Char → Option α}
    {c : Char} {s : List Char} {g : α} (h : f (c :: s) = some g) :
    searchOpt f (c :: s) = some g := by
  rw [searchOpt, h]

theorem searchOpt_of_some {α : Type} {f : List Char → Option α} {l : List Char}
    {g : α} (hne : l ≠ []) (h : f l = some g) : searchOpt f l = some g := by
  cases l with
  | nil => exact absurd rfl hne
  | cons c s => rw [searchOpt, h]

theorem digit_ne_comma {c : Char} (h : Char.isDigit c = true) :
    (c != ',') = true := by
  by_contra hne
  have hc : c = ',' := by
    simpa using hne
  rw [hc] at h
  exact absurd h (by decide)

theorem gsCat_filter {gs : List (List Char)}
    (hgs : ∀ g ∈ gs, ∀ c ∈ g, Char.isDigit c = true) :
    (gsCat gs).filter (fun c => c != ',') = gs.flatten := by
  induction gs with
  | nil => rfl
  | cons g gs' ih =>
    have hrw : gsCat (g :: gs') = (',' :: g) ++ gsCat gs' := by
      simp [gsCat, List.flatMap_cons]
    rw [hrw, List.filter_append, List.filter_cons]
    rw [if_neg (by simp)]
    rw [List.filter_eq_self.mpr fun c hc =>
      digit_ne_comma (hgs g (List.mem_cons_self _ _) c hc)]
    rw [ih fun g' hg' => hgs g' (List.mem_cons_of_mem _ hg')]
    simp [List.flatten]

/-- Stripping the separators from a well-formed numeral leaves the digit
groups concatenated. -/
theorem intOfGroup_numeral {g0 : List Char} {gs : List (List Char)}
    (hnum : wellNum g0 gs) :
    intOfGroup (numeral g0 gs) = decVal (g0 ++ gs.flatten) := by
  obtain ⟨_, _, hg0, hgs⟩ := hnum
  unfold intOfGroup numeral
  rw [List.filter_append,
    List.filter_eq_self.mpr fun c hc => digit_ne_comma (hg0 c hc),
    gsCat_filter fun g hg => (hgs g hg).2]

/-- The total-birds pattern starts with `\d`, so it cannot match at a
position whose first character is not a digit. -/
theorem birdsCrossedAt_none {c : Char} {s : List Char}
    (h : Char.isDigit c = false) : birdsCrossedAt (c :: s) = none := by
  unfold birdsCrossedAt numGroupAlts
  rw [charsUpTo_nil_of_head (show headNot Char.isDigit (c :: s) from h) 3]
  rfl

theorem birdsCrossedTail_true {ws mid t : List Char} (hwsne : ws ≠ [])
    (hws : ∀ c ∈ ws, isPyWs c = true) (hmid : ∀ c ∈ mid, ¬ c = '\n') :
    birdsCrossedTail (ws ++ ("Birds crossed".toList ++
      (mid ++ ("last night".toList ++ t)))) = true := by
  unfold birdsCrossedTail
  rw [List.any_eq_true]
  refine ⟨(ws, "Birds crossed".toList ++ (mid ++ ("last night".toList ++ t))),
    runAlts_full_mem hwsne hws, ?_⟩
  show ((litCI "Birds crossed".toList ("Birds crossed".toList ++
      (mid ++ ("last night".toList ++ t)))).map fun r2 =>
      (dotStarAlts r2).any fun dr =>
        (litCI "last night".toList dr.2).isSome).getD false = true
  rw [litCI_append]
  show (dotStarAlts (mid ++ ("last night".toList ++ t))).any
      (fun dr => (litCI "last night".toList dr.2).isSome) = true
  rw [List.any_eq_true]
  refine ⟨(mid, "last night".toList ++ t), dotStar_mem hmid, ?_⟩
  show (litCI "last night".toList ("last night".toList ++ t)).isSome = true
  rw [litCI_append]
  rfl

/-- **C8.** For every region page text containing a well-formed
thousands-separated numeral followed by a `Birds crossed … last night` phrase
on one line — with no digit before the numeral, so that the phrase is the
leftmost match — the extracted record's `total_birds` field equals that
numeral with the separators removed. -/
theorem total_birds_extraction (url pre ws mid post g0 : List Char)
    (gs : List (List Char))
    (hpre : ∀ c ∈ pre, Char.isDigit c = false)
    (hnum : wellNum g0 gs)
    (hwsne : ws ≠ []) (hws : ∀ c ∈ ws, isPyWs c = true)
    (hmid : ∀ c ∈ mid, ¬ c = '\n') :
    (ScraperUtils.scrape_single_url url
        (pre ++ (numeral g0 gs ++ (ws ++ ("Birds crossed".toList ++
          (mid ++ ("last night".toList ++ post))))))).total_birds
      = some (decVal (g0 ++ gs.flatten)) := by
  show (searchOpt birdsCrossedAt _).map intOfGroup = _
  rw [searchOpt_skip (q := fun c => !Char.isDigit c)
    (fun c s hq => birdsCrossedAt_none (by simpa using hq)) _
    (fun c hc => by simp [hpre c hc])]
  have hstop : numStop (ws ++ ("Birds crossed".toList ++
      (mid ++ ("last night".toList ++ post)))) := by
    cases ws with
    | nil => exact absurd rfl hwsne
    | cons w ws' =>
      exact numStop_of_ws_head (hws w (List.mem_cons_self _ _))
  obtain ⟨tl, htl⟩ := numGroupAlts_head hnum hstop
  have hat : birdsCrossedAt (numeral g0 gs ++ (ws ++ ("Birds crossed".toList ++
      (mid ++ ("last night".toList ++ post))))) = some (numeral g0 gs) := by
    unfold birdsCrossedAt
    rw [htl, List.find?_cons_of_pos (p := fun gr => birdsCrossedTail gr.2) tl
      (birdsCrossedTail_true hwsne hws hmid)]
    rfl
  rw [searchOpt_of_some (by
      have h1 := hnum.1
      cases g0 with
      | nil => simp at h1
      | cons a g0' => simp [numeral]) hat]
  show some (intOfGroup (numeral g0 gs)) = _
  rw [intOfGroup_numeral hnum]

/-- Witness for C8 at the spec's own example `"12,345 Birds crossed last
night"`. -/
theorem total_birds_extraction_witness :
    (ScraperUtils.scrape_single_url
        "https://dashboard.birdcast.info/region/US-FL-031".toList
        "12,345 Birds crossed last night".toList).total_birds = some 12345 :=
  (total_birds_extraction "https://dashboard.birdcast.info/region/US-FL-031".toList
      [] [' '] [] [] ['1', '2'] [['3', '4', '5']]
      (by simp) (by unfold wellNum; decide) (by decide) (by decide)
      (by simp)).trans (by decide)

/-! ## C3: the two peak-birds dialects -/
theorem ciEq_length {a b : List Char} (h : ciEq a b) : a.length = b.length := by
  have := congrArg List.length h
  simpa using this

theorem litCI_head_ne {p c : Char} {ps s : List Char}
    (h : ¬ p.toLower = c.toLower) : litCI (p :: ps) (c :: s) = none := by
  simp [litCI, h]

/-- Generic tail `\s+<literal>` success. -/
theorem wsLitTail_true {lit ws q t : List Char} (hwsne : ws ≠ [])
    (hws : ∀ c ∈ ws, isPyWs c = true) (hq : ciEq q lit) :
    ((runAlts isPyWs (ws ++ (q ++ t))).any fun wr =>
      (litCI lit wr.2).isSome) = true := by
  rw [List.any_eq_true]
  refine ⟨(ws, q ++ t), runAlts_full_mem hwsne hws, ?_⟩
  show (litCI lit (q ++ t)).isSome = true
  rw [litCI_append_of_ciEq hq]
  rfl

/-- The class peak pattern starts with `\d`. -/
theorem peakClassAt_none {c : Char} {s : List Char}
    (h : Char.isDigit c = false) : BirdcastScraper.peakClassAt (c :: s) = none := by
  unfold BirdcastScraper.peakClassAt numGroupAlts
  rw [charsUpTo_nil_of_head (show headNot Char.isDigit (c :: s) from h) 3]
  rfl

/-- The utils peak pattern starts with the literal `Peak`. -/
theorem peakAt_none {c : Char} {s : List Char}
    (h : ¬ c.toLower = 'p') : ScraperUtils.peakAt (c :: s) = none := by
  unfold ScraperUtils.peakAt
  rw [show ("Peak of ".toList : List Char) = 'P' :: "eak of ".toList from rfl,
    litCI_head_ne (by simpa using fun hc => h hc.symm)]
  rfl

theorem class_peak_proj (url text : List Char) :
    (BirdcastScraper.scrape_single_url url text).peak_birds_in_flight
      = (searchOpt BirdcastScraper.peakClassAt text).map intOfGroup := by
  unfold BirdcastScraper.scrape_single_url
  split <;> rfl

/-- **C3 counterexample.** A page in the bare `N Birds in flight` dialect: the
shared utility extractor leaves `peak_birds_in_flight` absent (its only
pattern requires the literal `Peak of`), refuting "both page-text dialects
are supported by the extraction". -/
theorem peak_bare_dialect_not_extracted_by_utils :
    (ScraperUtils.scrape_single_url
        "https://dashboard.birdcast.info/region/US-FL-031".toList
        "500 Birds in flight".toList).peak_birds_in_flight = none := by
  decide

/-- **C3 (amended).** The two peak dialects are split between the two
implementations.  (1) The class-based scraper's pattern
`(\d{1,3}(?:,?\d{3})*)\s+Birds in flight` extracts the integer from any page
containing a numeral, whitespace and a case-insensitive `Birds in flight` —
which covers both the bare dialect and the `Peak of N birds in flight`
dialect, whose tail it matches.  (2) The shared utility extractor's pattern
`Peak of (\d{1,3}(?:,?\d{3})*) birds in flight` extracts the integer only
from the `Peak of` dialect; on the bare dialect it leaves the field absent, as the counterexample
above shows. -/
theorem peak_dialects_by_implementation :
    (∀ url pre ws bf post g0 gs,
      (∀ c ∈ pre, Char.isDigit c = false) → wellNum g0 gs →
      ws ≠ [] → (∀ c ∈ ws, isPyWs c = true) →
      ciEq bf "Birds in flight".toList →
      (BirdcastScraper.scrape_single_url url
          (pre ++ (numeral g0 gs ++ (ws ++ (bf ++ post))))).peak_birds_in_flight
        = some (decVal (g0 ++ gs.flatten)))
  ∧ (∀ url pre ptok bf post g0 gs,
      (∀ c ∈ pre, ¬ c.toLower = 'p') → ciEq ptok "Peak of ".toList →
      wellNum g0 gs → ciEq bf "birds in flight".toList →
      (ScraperUtils.scrape_single_url url
          (pre ++ (ptok ++ (numeral g0 gs ++ (' ' :: (bf ++ post)))))).peak_birds_in_flight
        = some (decVal (g0 ++ gs.flatten))) := by
  constructor
  · intro url pre ws bf post g0 gs hpre hnum hwsne hws hbf
    rw [class_peak_proj]
    rw [searchOpt_skip (q := fun c => !Char.isDigit c)
      (fun c s hq => peakClassAt_none (by simpa using hq)) _
      (fun c hc => by simp [hpre c hc])]
    have hstop : numStop (ws ++ (bf ++ post)) := by
      cases ws with
      | nil => exact absurd rfl hwsne
      | cons w ws' => exact numStop_of_ws_head (hws w (List.mem_cons_self _ _))
    obtain ⟨tl, htl⟩ := numGroupAlts_head hnum hstop
    have hat : BirdcastScraper.peakClassAt
        (numeral g0 gs ++ (ws ++ (bf ++ post))) = some (numeral g0 gs) := by
      unfold BirdcastScraper.peakClassAt
      rw [htl, List.find?_cons_of_pos
        (p := fun gr => (runAlts isPyWs gr.2).any fun wr =>
          (litCI "Birds in flight".toList wr.2).isSome) tl
        (wsLitTail_true hwsne hws hbf)]
      rfl
    rw [searchOpt_of_some (by
        have h1 := hnum.1
        cases g0 with
        | nil => simp at h1
        | cons a g0' => simp [numeral]) hat]
    show some (intOfGroup (numeral g0 gs)) = _
    rw [intOfGroup_numeral hnum]
  · intro url pre ptok bf post g0 gs hpre hptok hnum hbf
    show (searchOpt ScraperUtils.peakAt _).map intOfGroup = _
    rw [searchOpt_skip (q := fun c => !(c.toLower = 'p' : Bool))
      (fun c s hq => peakAt_none (by simpa using hq)) _
      (fun c hc => by simpa using hpre c hc)]
    have hstop : numStop (' ' :: (bf ++ post)) := numStop_of_ws_head (by decide)
    obtain ⟨tl, htl⟩ := numGroupAlts_head hnum hstop
    have hbf' : ciEq (' ' :: bf) (" birds in flight".toList) := by
      show (' ' :: bf).map Char.toLower = _
      rw [show (" birds in flight".toList : List Char)
        = ' ' :: "birds in flight".toList from rfl]
      simp only [List.map_cons]
      rw [hbf]
    have hat : ScraperUtils.peakAt
        (ptok ++ (numeral g0 gs ++ (' ' :: (bf ++ post))))
          = some (numeral g0 gs) := by
      unfold ScraperUtils.peakAt
      rw [litCI_append_of_ciEq hptok]
      show ((numGroupAlts (numeral g0 gs ++ (' ' :: (bf ++ post)))).find? fun gr =>
          (litCI " birds in flight".toList gr.2).isSome).map (fun gr => gr.1)
        = some (numeral g0 gs)
      rw [htl, List.find?_cons_of_pos
        (p := fun gr => (litCI " birds in flight".toList gr.2).isSome) tl
        (by
          show (litCI " birds in flight".toList
            (' ' :: (bf ++ post))).isSome = true
          rw [show (' ' :: (bf ++ post) : List Char)
            = (' ' :: bf) ++ post from rfl]
          rw [litCI_append_of_ciEq hbf']
          rfl)]
      rfl
    rw [searchOpt_of_some (by
        have := ciEq_length hptok
        cases ptok with
        | nil => simp at this
        | cons a p' => simp) hat]
    show some (intOfGroup (numeral g0 gs)) = _
    rw [intOfGroup_numeral hnum]

/-- Witness for C3 (amended): the class scraper on the bare dialect and the
utility extractor on the `Peak of` dialect. -/
theorem peak_dialects_by_implementation_witness :
    (BirdcastScraper.scrape_single_url
        "https://dashboard.birdcast.info/region/US-FL-031".toList
        "500 Birds in flight".toList).peak_birds_in_flight = some 500
  ∧ (ScraperUtils.scrape_single_url
        "https://dashboard.birdcast.info/region/US-FL-031".toList
        "Peak of 1,234 birds in flight".toList).peak_birds_in_flight
      = some 1234 :=
  ⟨(peak_dialects_by_implementation.1
      "https://dashboard.birdcast.info/region/US-FL-031".toList
      [] [' '] "Birds in flight".toList [] ['5', '0', '0'] []
      (by simp) (by unfold wellNum; decide) (by decide) (by decide)
      (by decide)).trans (by decide),
   (peak_dialects_by_implementation.2
      "https://dashboard.birdcast.info/region/US-FL-031".toList
      [] "Peak of ".toList "birds in flight".toList [] ['1'] [['2', '3', '4']]
      (by simp) (by decide) (by unfold wellNum; decide) (by decide)).trans
     (by decide)⟩

/-! ## C9: the diagnostic field -/
/-- **C9 counterexample.** On an empty page text with a valid region URL the
record contains `region_code` and nothing else beyond the base fields —
exactly the situation in which the claim requires a diagnostic sample — yet
no `debug_content_sample` is attached: the code's threshold `len(data) > 2`
counts `region_code` as data. -/
theorem no_diagnostic_when_region_code_only :
    BirdcastScraper.fieldCount (BirdcastScraper.scrape_single_url
        "https://dashboard.birdcast.info/region/US-FL-031".toList []) = 3
  ∧ (BirdcastScraper.scrape_single_url
        "https://dashboard.birdcast.info/region/US-FL-031".toList
        []).region_code = some "US-FL-031".toList
  ∧ (BirdcastScraper.scrape_single_url
        "https://dashboard.birdcast.info/region/US-FL-031".toList
        []).debug_content_sample = none := by
  exact ⟨by decide, by decide, by decide⟩

/-- **C9 (amended).** The class-based extractor attaches the bounded
diagnostic sample exactly when *nothing at all* was extracted — when the
record holds only `scrape_timestamp` and `url`, `region_code` included among
the missing fields — and any attached sample is at most 500 characters
(`"No text content"` for an empty page).  When `region_code` or any other
field is present, no diagnostic is attached.  (The shared utility extractor
never attaches a diagnostic field at all — `UtilsData` has no such field to
set, see `ScraperUtils.scrape_single_url`.) -/
theorem diagnostic_iff_nothing_extracted (url text : List Char) :
    ((BirdcastScraper.scrape_single_url url text).debug_content_sample.isSome
      ↔ BirdcastScraper.fieldCount
          (BirdcastScraper.scrape_single_url url text) = 2)
  ∧ ∀ d, (BirdcastScraper.scrape_single_url url text).debug_content_sample
      = some d → d.length ≤ 500 := by
  have hbase : 2 ≤ BirdcastScraper.fieldCount (BirdcastScraper.mkData url text) := by
    unfold BirdcastScraper.fieldCount
    omega
  unfold BirdcastScraper.scrape_single_url
  split
  · rename_i h
    constructor
    · constructor
      · intro hs
        exact absurd hs (by
          rw [show (BirdcastScraper.mkData url text).debug_content_sample
            = none from rfl]
          simp)
      · intro hc
        rw [hc] at h
        exact absurd h (by omega)
    · intro d hd
      rw [show (BirdcastScraper.mkData url text).debug_content_sample
        = none from rfl] at hd
      exact absurd hd (by simp)
  · rename_i h
    constructor
    · constructor
      · intro _
        show BirdcastScraper.fieldCount (BirdcastScraper.mkData url text) = 2
        omega
      · intro _
        rfl
    · intro d hd
      have hd' : d = if text.isEmpty then "No text content".toList
          else text.take 500 := by
        simpa using hd.symm
      rw [hd']
      split
      · decide
      · rw [List.length_take]
        exact Nat.min_le_left _ _

/-- Witness for C9 (amended): with no URL and no text nothing is extracted,
the diagnostic is attached, and its sample is within the bound. -/
theorem diagnostic_iff_nothing_extracted_witness :
    ("No text content".toList).length ≤ 500 :=
  (diagnostic_iff_nothing_extracted [] []).2 "No text content".toList (by decide)

theorem tsSafe_not_alpha {c : Char} (h : tsSafe c = true) :
    isAsciiAlpha c = false := by
  have hc : c = ' ' ∨ c = '.' ∨ c = '\n' := by
    simpa [tsSafe, Bool.or_eq_true, decide_eq_true_eq, or_assoc] using h
  rcases hc with rfl | rfl | rfl <;> decide

theorem charsExact3_none {p : Char → Bool} {t : List Char} (h : headNot p t) :
    charsExact p 3 t = none :=
  charsExact_none h 2

/-- The strict pattern cannot match at a position starting with a safe
character. -/
theorem strictTSAt_safe {c : Char} {s : List Char} (h : tsSafe c = true) :
    ScraperUtils.strictTSAt (c :: s) = none := by
  unfold ScraperUtils.strictTSAt ScraperUtils.strictTSAlts
  rw [charsExact3_none
    (show headNot isAsciiAlpha (c :: s) from tsSafe_not_alpha h)]
  rfl

set_option maxHeartbeats 1600000 in
/-- The strict pattern consumes exactly the first example timestamp. -/
theorem strictTSAt_fri (rest : List Char) :
    ScraperUtils.strictTSAt ("Fri, Oct 24, 2025, 6:00 PM EDT".toList ++ rest)
      = some ("Fri, Oct 24, 2025, 6:00 PM EDT".toList, rest) := rfl

set_option maxHeartbeats 1600000 in
/-- The strict pattern consumes exactly the second example timestamp. -/
theorem strictTSAt_sat (rest : List Char) :
    ScraperUtils.strictTSAt ("Sat, Oct 25, 2025, 6:30 AM EDT".toList ++ rest)
      = some ("Sat, Oct 25, 2025, 6:30 AM EDT".toList, rest) := rfl

theorem findAllStrictF_nil (fuel : Nat) :
    ScraperUtils.findAllStrictF fuel [] = [] := by
  cases fuel <;> rfl

theorem findAllStrictF_skip (pre : List Char)
    (h : ∀ c ∈ pre, tsSafe c = true) :
    ∀ (fuel : Nat) (t : List Char),
      ScraperUtils.findAllStrictF (pre.length + fuel) (pre ++ t)
        = ScraperUtils.findAllStrictF fuel t := by
  induction pre with
  | nil =>
    intro fuel t
    rw [List.nil_append, List.length_nil, Nat.zero_add]
  | cons c pre' ih =>
    intro fuel t
    have hc := h c (List.mem_cons_self _ _)
    rw [show (c :: pre').length + fuel = (pre'.length + fuel) + 1 by
      simp only [List.length_cons]; omega]
    rw [List.cons_append]
    simp only [ScraperUtils.findAllStrictF, strictTSAt_safe hc]
    exact ih (fun e he => h e (List.mem_cons_of_mem _ he)) fuel t

theorem findAllStrictF_cons {l m rest : List Char}
    (h : ScraperUtils.strictTSAt l = some (m, rest)) (fuel : Nat) :
    ScraperUtils.findAllStrictF (fuel + 1) l
      = m :: ScraperUtils.findAllStrictF fuel rest := by
  cases l with
  | nil =>
    rw [show ScraperUtils.strictTSAt [] = none from rfl] at h
    exact Option.noConfusion h
  | cons c s => simp only [ScraperUtils.findAllStrictF, h]

/-- `findall` of the strict pattern on a page holding exactly the two example
timestamps separated by safe characters. -/
theorem findAllStrict_two (pre mid post : List Char)
    (hpre : ∀ c ∈ pre, tsSafe c = true) (hmid : ∀ c ∈ mid, tsSafe c = true)
    (hpost : ∀ c ∈ post, tsSafe c = true) :
    ScraperUtils.findAllStrict
        (pre ++ ("Fri, Oct 24, 2025, 6:00 PM EDT".toList ++
          (mid ++ ("Sat, Oct 25, 2025, 6:30 AM EDT".toList ++ post))))
      = ["Fri, Oct 24, 2025, 6:00 PM EDT".toList,
         "Sat, Oct 25, 2025, 6:30 AM EDT".toList] := by
  unfold ScraperUtils.findAllStrict
  rw [show (pre ++ ("Fri, Oct 24, 2025, 6:00 PM EDT".toList ++
      (mid ++ ("Sat, Oct 25, 2025, 6:30 AM EDT".toList ++ post)))).length
    = pre.length + ("Fri, Oct 24, 2025, 6:00 PM EDT".toList ++
      (mid ++ ("Sat, Oct 25, 2025, 6:30 AM EDT".toList ++ post))).length by
      simp [List.length_append]]
  rw [findAllStrictF_skip pre hpre]
  rw [show ("Fri, Oct 24, 2025, 6:00 PM EDT".toList ++
      (mid ++ ("Sat, Oct 25, 2025, 6:30 AM EDT".toList ++ post))).length
    = (29 + (mid ++ ("Sat, Oct 25, 2025, 6:30 AM EDT".toList ++ post)).length)
        + 1 by
      simp [List.length_append]
      omega]
  rw [findAllStrictF_cons (strictTSAt_fri _) _]
  rw [show (29 : Nat) + (mid ++ ("Sat, Oct 25, 2025, 6:30 AM EDT".toList ++
      post)).length
    = mid.length + (29 + ("Sat, Oct 25, 2025, 6:30 AM EDT".toList ++
        post).length) by
      simp [List.length_append]
      omega]
  rw [findAllStrictF_skip mid hmid]
  rw [show (29 : Nat) + ("Sat, Oct 25, 2025, 6:30 AM EDT".toList ++
      post).length = (58 + post.length) + 1 by
      simp [List.length_append]
      omega]
  rw [findAllStrictF_cons (strictTSAt_sat _) _]
  have hptail := findAllStrictF_skip post hpost 58 []
  rw [List.append_nil] at hptail
  rw [show (58 : Nat) + post.length = post.length + 58 by omega, hptail,
    findAllStrictF_nil]

/-- **C7 counterexample.** On a page where the strict pattern finds nothing
but the label-anchored fallback pattern does match (as the class-based
scraper's own fallback shows), the shared utility extractor extracts no
migration-time field at all: it has no fallback, refuting "whenever the
strict pattern yields no match, it falls back to a looser pattern". -/
theorem utils_has_no_fallback :
    (searchOpt (BirdcastScraper.labelFallbackAt "Starting".toList)
        "Starting: 8:00 PM EDT Ending: 6:00 AM EDT".toList).isSome = true
  ∧ ScraperUtils.findAllStrict
      "Starting: 8:00 PM EDT Ending: 6:00 AM EDT".toList = []
  ∧ (ScraperUtils.scrape_single_url
        "https://dashboard.birdcast.info/region/US-FL-031".toList
        "Starting: 8:00 PM EDT Ending: 6:00 AM EDT".toList).migration_start_raw
      = none
  ∧ (ScraperUtils.scrape_single_url
        "https://dashboard.birdcast.info/region/US-FL-031".toList
        "Starting: 8:00 PM EDT Ending: 6:00 AM EDT".toList).migration_end_raw
      = none :=
  ⟨by decide, by decide, by decide, by decide⟩

/-- **C7 (amended).** The shared utility extractor collects the
strict-pattern timestamps with `findall` and, when at least two are found,
assigns the first in page order as the migration start and the second as the
end; it performs no label-anchored fallback (the `Starting:`/`Ending:`
anchored strict and fallback patterns exist only in the class-based
scraper). -/
theorem strict_times_first_two (url pre mid post : List Char)
    (hpre : ∀ c ∈ pre, tsSafe c = true) (hmid : ∀ c ∈ mid, tsSafe c = true)
    (hpost : ∀ c ∈ post, tsSafe c = true) :
    (ScraperUtils.scrape_single_url url
        (pre ++ ("Fri, Oct 24, 2025, 6:00 PM EDT".toList ++
          (mid ++ ("Sat, Oct 25, 2025, 6:30 AM EDT".toList ++
            post))))).migration_start_raw
      = some "Fri, Oct 24, 2025, 6:00 PM EDT".toList
  ∧ (ScraperUtils.scrape_single_url url
        (pre ++ ("Fri, Oct 24, 2025, 6:00 PM EDT".toList ++
          (mid ++ ("Sat, Oct 25, 2025, 6:30 AM EDT".toList ++
            post))))).migration_end_raw
      = some "Sat, Oct 25, 2025, 6:30 AM EDT".toList := by
  have h2 := findAllStrict_two pre mid post hpre hmid hpost
  constructor
  · show (match ScraperUtils.findAllStrict (pre ++
        ("Fri, Oct 24, 2025, 6:00 PM EDT".toList ++
          (mid ++ ("Sat, Oct 25, 2025, 6:30 AM EDT".toList ++ post)))) with
      | t1 :: _ :: _ => some t1
      | _ => none) = some "Fri, Oct 24, 2025, 6:00 PM EDT".toList
    rw [h2]
  · show (match ScraperUtils.findAllStrict (pre ++
        ("Fri, Oct 24, 2025, 6:00 PM EDT".toList ++
          (mid ++ ("Sat, Oct 25, 2025, 6:30 AM EDT".toList ++ post)))) with
      | _ :: t2 :: _ => some t2
      | _ => none) = some "Sat, Oct 25, 2025, 6:30 AM EDT".toList
    rw [h2]

/-- Witness for C7 (amended) with the two timestamps separated by `" . "`. -/
theorem strict_times_first_two_witness :
    (ScraperUtils.scrape_single_url
        "https://dashboard.birdcast.info/region/US-FL-031".toList
        ("Fri, Oct 24, 2025, 6:00 PM EDT".toList ++ (" . ".toList ++
          ("Sat, Oct 25, 2025, 6:30 AM EDT".toList ++
            [])))).migration_start_raw
      = some "Fri, Oct 24, 2025, 6:00 PM EDT".toList :=
  (strict_times_first_two
      "https://dashboard.birdcast.info/region/US-FL-031".toList
      [] " . ".toList [] (by simp) (by decide) (by simp)).1

end Birdcast
